import Mathlib

set_option maxHeartbeats 1000000

/-!
Shallow embedding of `src/main.py`: a converter from a line-oriented
zone-query description of DNS records to BIND9 forward zone files and
reverse (PTR) zone files.

Python dictionaries are modelled as association lists with in-place value
replacement (`insertA`), fallible operations (`KeyError`, `IndexError`,
`ValueError`, `StopIteration`) as `Option`, and each `f.write(...)` call as
one element of a `List String` of writes.
-/

/-- Deployment constant `HIGH_LEVEL_DOMAIN` (src/main.py line 9). -/
def HIGH_LEVEL_DOMAIN : String := "example.com"

/-- Deployment constant `DOMAIN_NAME` (src/main.py line 10). -/
def DOMAIN_NAME : String := "internal.example.com"

/-- Deployment constant `SOA_NS_ENTRY` (src/main.py line 11). -/
def SOA_NS_ENTRY : String := "mstbind.example.com"

/-- Deployment constant `SOA_HOSTMASTER_ENTRY` (src/main.py line 12). -/
def SOA_HOSTMASTER_ENTRY : String := "hostmaster.example.com."

/-- Deployment constant `HOST_IPV4` (src/main.py line 13); note the trailing dot. -/
def HOST_IPV4 : String := "192.168.0.0."

/-- Python `str.strip()` on a character list. -/
def pyStripL (l : List Char) : List Char :=
  ((l.dropWhile Char.isWhitespace).reverse.dropWhile Char.isWhitespace).reverse

/-- Python `str.strip()`. -/
def pyStrip (s : String) : String := ⟨pyStripL s.data⟩

/-- Python `str.strip(c)` with a one-character argument: remove every leading
and trailing occurrence of `c`. -/
def pyStripChar (c : Char) (s : String) : String :=
  ⟨((s.data.dropWhile (· == c)).reverse.dropWhile (· == c)).reverse⟩

/-- Worker for `pySplit`, accumulating the current piece in reverse. -/
def splitChA (sep : Char) : List Char → List Char → List (List Char)
  | [], acc => [acc.reverse]
  | c :: cs, acc =>
    if c = sep then acc.reverse :: splitChA sep cs [] else splitChA sep cs (c :: acc)

/-- Python `str.split(sep)` for a one-character separator, keeping empty pieces. -/
def pySplit (sep : Char) (s : String) : List String :=
  (splitChA sep s.data []).map fun l => ⟨l⟩

/-- Python `sep.join(parts)`. -/
def pyJoin (sep : String) : List String → String
  | [] => ""
  | x :: xs => xs.foldl (fun a b => a ++ sep ++ b) x

/-- Python `str.split(sep, 1)`: the text before the first separator, and the
remainder when the separator occurs at all. -/
def splitFirst (sep : Char) (s : String) : String × Option String :=
  if sep ∈ s.data then
    (⟨s.data.takeWhile (fun c => c != sep)⟩, some ⟨(s.data.dropWhile (fun c => c != sep)).tail⟩)
  else (s, none)

/-- Worker for `pySplitWs`, accumulating the current token in reverse. -/
def wsTokA : List Char → List Char → List String
  | [], acc => if acc = [] then [] else [⟨acc.reverse⟩]
  | c :: cs, acc =>
    if c.isWhitespace then
      if acc = [] then wsTokA cs [] else ⟨acc.reverse⟩ :: wsTokA cs []
    else wsTokA cs (c :: acc)

/-- Python `str.split()` with no argument: maximal nonempty runs of
non-whitespace characters. -/
def pySplitWs (s : String) : List String := wsTokA s.data []

/-- Python `str.startswith`. -/
def pyStartswith (s p : String) : Bool := p.data.isPrefixOf s.data

/-- Python `str.endswith`. -/
def pyEndswith (s p : String) : Bool := p.data.isSuffixOf s.data

/-- Character class `\w` of the attribute regex in `parse_record`. -/
def isWordChar (c : Char) : Bool := c.isAlphanum || c == '_'

/-- Character class `[^,\s]` of the attribute regex in `parse_record`. -/
def isValChar (c : Char) : Bool := !(c == ',') && !c.isWhitespace

/-- Left-to-right scan for non-overlapping matches of `(\w+)=([^,\s]+)`, as
`re.findall` performs on the details string.  The fuel argument is an upper
bound on the number of characters still to be scanned; `findallKV` supplies
the length of the input, which always suffices because every recursive call
consumes at least one character. -/
def findallA : Nat → List Char → List (String × String)
  | 0, _ => []
  | _, [] => []
  | fuel + 1, c :: rest =>
    if isWordChar c then
      match rest.dropWhile isWordChar with
      | '=' :: tail =>
        let v := tail.takeWhile isValChar
        if v = [] then findallA fuel tail
        else (⟨c :: rest.takeWhile isWordChar⟩, ⟨v⟩) :: findallA fuel (tail.dropWhile isValChar)
      | _ => findallA fuel (rest.dropWhile isWordChar)
    else findallA fuel rest

/-- All `(\w+)=([^,\s]+)` matches of a string, leftmost first. -/
def findallKV (s : String) : List (String × String) := findallA s.data.length s.data

/-- A parsed record: the Python dictionary built by `parse_record`. -/
abbrev Dict := List (String × String)

/-- Lookup in an association list: Python `d[k]` (`none` models `KeyError`). -/
def lookupA {α : Type} (k : String) : List (String × α) → Option α
  | [] => none
  | (k₁, v) :: rest => if k₁ = k then some v else lookupA k rest

/-- Python `dict` assignment `d[k] = v`: replace the value in place when the
key exists, otherwise append the new binding. -/
def insertA {α : Type} (l : List (String × α)) (k : String) (v : α) : List (String × α) :=
  if k ∈ l.map Prod.fst then l.map (fun p => if p.1 = k then (k, v) else p)
  else l ++ [(k, v)]

/-- Python `d.update(m)`, applying the pairs of `m` in order. -/
def updateA (d : Dict) (m : List (String × String)) : Dict :=
  m.foldl (fun acc p => insertA acc p.1 p.2) d

/-- Last value bound to key `k` in a pair list: the value `dict(pairs)` keeps. -/
def lastVal (k : String) : List (String × String) → Option String
  | [] => none
  | (k₁, v) :: rest =>
    match lastVal k rest with
    | some w => some w
    | none => if k₁ = k then some v else none

/-- Embedding of `parse_record` (src/main.py lines 19–38).  `none` models the
`IndexError` raised by `details.split()[0]` when a recognized record type has
an empty details string. -/
def parse_record (line : String) : Option Dict :=
  let stripped := pyStrip line
  let pr := splitFirst ':' stripped
  let record_type := pyStrip pr.1
  let details :=
    match pr.2 with
    | some s => pyStrip s
    | none => ""
  let base : Dict := [("type", record_type)]
  let withMain : Option Dict :=
    if record_type = "SOA" ∨ record_type = "NS" ∨ record_type = "CNAME" then
      match pySplitWs details with
      | [] => none
      | tok :: _ => some (insertA base "domain" tok)
    else if record_type = "A" then
      match pySplitWs details with
      | [] => none
      | tok :: _ => some (insertA base "ip" tok)
    else some base
  withMain.map fun b => updateA b (findallKV details)

/-- One node of the parsed zone description: the Python dictionary value
`{"Records": ..., "Children": ..., "DNS_Records": [...]}`. -/
structure ZoneNode where
  Records : Int
  Children : Int
  DNS_Records : List Dict
  deriving DecidableEq, Repr

/-- The whole parsed zone description: the Python dictionary `dns_data`. -/
abbrev DnsData := List (String × ZoneNode)

/-- Numeric value of a digit list. -/
def digitsVal (l : List Char) : Int :=
  l.foldl (fun a c => a * 10 + ((c.toNat : Int) - ('0'.toNat : Int))) 0

/-- Python `int(s)` for optionally signed decimal text surrounded by blanks;
`none` models `ValueError`. -/
def pyInt? (s : String) : Option Int :=
  match (pyStrip s).data with
  | [] => none
  | '-' :: ds => if ds ≠ [] ∧ ds.all Char.isDigit then some (-(digitsVal ds)) else none
  | '+' :: ds => if ds ≠ [] ∧ ds.all Char.isDigit then some (digitsVal ds) else none
  | ds => if ds ≠ [] ∧ ds.all Char.isDigit then some (digitsVal ds) else none

/-- The raw name and the two integer fields of a header line: mirrors
`[part.split('=')[1] for part in line.split(',')]` with the tuple unpacking
into exactly three variables and the two `int(...)` conversions.  `none`
models `IndexError` (a part without `=`), `ValueError` (not three parts, or a
non-numeric count). -/
def headerRaw (line : String) : Option (String × Int × Int) :=
  match (pySplit ',' line).map (fun p => (pySplit '=' p).get? 1) with
  | [some n, some r, some c] =>
    match pyInt? r, pyInt? c with
    | some ri, some ci => some (n, ri, ci)
    | _, _ => none
  | _ => none

/-- Append a freshly parsed record to the node currently named `cur`. -/
def appendRecord (d : DnsData) (cur : String) (rec : Dict) : DnsData :=
  d.map fun p =>
    if p.1 = cur then (p.1, ⟨p.2.Records, p.2.Children, p.2.DNS_Records ++ [rec]⟩) else p

/-- State of the `parse_file` loop: the data built so far and `current_name`. -/
abbrev PState := DnsData × Option String

/-- One iteration of the `parse_file` loop (src/main.py lines 50–63). -/
def pstep (st : PState) (raw : String) : Option PState :=
  let line := pyStrip raw
  if pyStartswith line "Name=" then
    match headerRaw line with
    | none => none
    | some (nm, r, c) =>
      let key := if nm = "" then "root" else nm
      some (insertA st.1 key ⟨r, c, []⟩, some key)
  else if line ≠ "" then
    match st.2 with
    | some cur =>
      match parse_record line with
      | some rec => some (appendRecord st.1 cur rec, st.2)
      | none => none
    | none => some st
  else some st

/-- The `parse_file` loop over a list of lines from a given state. -/
def runLines : List String → PState → Option PState
  | [], st => some st
  | l :: ls, st =>
    match pstep st l with
    | none => none
    | some st₁ => runLines ls st₁

/-- Embedding of `parse_file` (src/main.py lines 40–65), taking the file's
lines as input. -/
def parse_file (lines : List String) : Option DnsData :=
  (runLines lines ([], none)).map Prod.fst

/-- The `next(r for r in ... if r['type'] == 'SOA')` search for the first SOA
record of the root node; `none` models both `StopIteration` (no SOA) and
`KeyError` (a record without a `type` key encountered first). -/
def findSOA : List Dict → Option Dict
  | [] => none
  | r :: rs =>
    match lookupA "type" r with
    | none => none
    | some t => if t = "SOA" then some r else findSOA rs

/-- The five numbered SOA body lines (src/main.py lines 76–77); the field
names are capitalized by `field.capitalize()`. -/
def soaFieldWrites (soa : Dict) : Option (List String) := do
  let s ← lookupA "serial" soa
  let rf ← lookupA "refresh" soa
  let rt ← lookupA "retry" soa
  let ex ← lookupA "expire" soa
  let mt ← lookupA "minttl" soa
  pure ["\t" ++ s ++ "\t; Serial\n", "\t" ++ rf ++ "\t; Refresh\n",
        "\t" ++ rt ++ "\t; Retry\n", "\t" ++ ex ++ "\t; Expire\n",
        "\t" ++ mt ++ "\t; Minttl\n"]

/-- The per-record NS lines of the root node (src/main.py lines 88–90). -/
def nsRecordWrites : List Dict → Option (List String)
  | [] => some []
  | r :: rs => do
    let t ← lookupA "type" r
    if t = "NS" then do
      let ttl ← lookupA "ttl" r
      let dm ← lookupA "domain" r
      let rest ← nsRecordWrites rs
      pure (("@\t" ++ pyStripChar ')' ttl ++ "\tIN NS\t" ++ dm ++ "\n") :: rest)
    else nsRecordWrites rs

/-- A `defaultdict(list)` keyed by TTL (and the `setdefault` dictionary of the
reverse builder): lists of payloads per key, in first-occurrence key order. -/
abbrev Buckets (α : Type) := List (String × List α)

/-- `b[k].append(v)` on a `defaultdict(list)` / `b.setdefault(k, []).append(v)`. -/
def bucketAdd {α : Type} (b : Buckets α) (k : String) (v : α) : Buckets α :=
  if k ∈ b.map Prod.fst then b.map (fun p => if p.1 = k then (p.1, p.2 ++ [v]) else p)
  else b ++ [(k, [v])]

/-- Grouping of A/CNAME payload pairs `(domain, value)` by stripped TTL. -/
abbrev Grouping := Buckets (String × String)

/-- The inner record loop of the grouping pass (src/main.py lines 99–103). -/
def collectRecords (dm : String) : List Dict → Grouping × Grouping → Option (Grouping × Grouping)
  | [], acc => some acc
  | r :: rs, acc => do
    let t ← lookupA "type" r
    if t = "A" then do
      let ttl ← lookupA "ttl" r
      let ip ← lookupA "ip" r
      collectRecords dm rs (bucketAdd acc.1 (pyStripChar ')' ttl) (dm, ip), acc.2)
    else if t = "CNAME" then do
      let ttl ← lookupA "ttl" r
      let dom ← lookupA "domain" r
      collectRecords dm rs (acc.1, bucketAdd acc.2 (pyStripChar ')' ttl) (dm, dom))
    else collectRecords dm rs acc

/-- The node loop of the grouping pass (src/main.py lines 97–103): A and CNAME
records of every non-root node, grouped by stripped TTL value. -/
def collectGroups : DnsData → Grouping × Grouping → Option (Grouping × Grouping)
  | [], acc => some acc
  | (dm, node) :: rest, acc =>
    if dm = "root" then collectGroups rest acc
    else do
      let acc' ← collectRecords dm node.DNS_Records acc
      collectGroups rest acc'

/-- Embedding of `write_grouped_records` (src/main.py lines 108–117) as the
list of `f.write` calls it performs. -/
def write_grouped_records (record_type : String) (g : Grouping) : List String :=
  ("; " ++ record_type ++ " Records\n") ::
    (g.map (fun p =>
      ("; TTL " ++ p.1 ++ "\n") ::
        (p.2.map (fun r => r.1 ++ "\t" ++ p.1 ++ "\tIN " ++ record_type ++ "\t" ++ r.2 ++ "\n")
          ++ ["\n"]))).flatten

/-- Embedding of `generate_bind9_zone` (src/main.py lines 67–106) as the list
of `f.write` calls of a successful run; `none` models any raised exception. -/
def generate_bind9_zone (json_data : DnsData) (zone_name : String) : Option (List String) := do
  let rootNode ← lookupA "root" json_data
  let soa ← findSOA rootNode.DNS_Records
  let ttl ← lookupA "ttl" soa
  let fieldWs ← soaFieldWrites soa
  let nsWs ← nsRecordWrites rootNode.DNS_Records
  let groups ← collectGroups json_data ([], [])
  pure (["$TTL " ++ pyStripChar ')' ttl ++ "\n",
         "@ IN SOA " ++ SOA_NS_ENTRY ++ ". " ++ SOA_HOSTMASTER_ENTRY ++ " (\n"]
        ++ fieldWs
        ++ [")\n\n", "@\tIN\tNS\t" ++ SOA_NS_ENTRY ++ ".\n\n"]
        ++ (if pyEndswith zone_name HIGH_LEVEL_DOMAIN then
              [SOA_NS_ENTRY ++ ".\tIN\tA\t" ++ HOST_IPV4 ++ "\n\n"]
            else [])
        ++ nsWs ++ ["\n"]
        ++ write_grouped_records "A" groups.1
        ++ write_grouped_records "CNAME" groups.2)

/-- The cross-zone reverse index `reverse_zones`: subnet key to the ordered
`(reversed-IP, domain)` pairs collected for it. -/
abbrev RevZones := Buckets (String × String)

/-- The record loop of `generate_reverse_zone` for one node's records. -/
def genRevRecords (dm : String) : List Dict → RevZones → Option RevZones
  | [], rz => some rz
  | r :: rs, rz => do
    let t ← lookupA "type" r
    if t = "A" then do
      let ip ← lookupA "ip" r
      let parts := pySplit '.' ip
      genRevRecords dm rs
        (bucketAdd rz (pyJoin "." (parts.take 3)) (pyJoin "." parts.reverse, dm))
    else genRevRecords dm rs rz

/-- Embedding of `generate_reverse_zone` (src/main.py lines 119–131): extend
the accumulated reverse index with the A records of every non-root node. -/
def generate_reverse_zone : DnsData → RevZones → Option RevZones
  | [], rz => some rz
  | (dm, node) :: rest, rz =>
    if dm = "root" then generate_reverse_zone rest rz
    else do
      let rz' ← genRevRecords dm node.DNS_Records rz
      generate_reverse_zone rest rz'

/-- The reverse index accumulated over a run's zones, in processing order
(the loop of `main`, src/main.py lines 207–219, restricted to its
reverse-index effect). -/
def processZones : List DnsData → RevZones → Option RevZones
  | [], rz => some rz
  | d :: rest, rz => do
    let rz' ← generate_reverse_zone d rz
    processZones rest rz'

/-- The fixed header writes of `write_reverse_zone_header`
(src/main.py lines 152–164). -/
def reverseHeaderWrites : List String :=
  ["$TTL 86400\n",
   "@ IN SOA " ++ SOA_NS_ENTRY ++ ". " ++ SOA_HOSTMASTER_ENTRY ++ " (\n",
   "\t1 ; Serial\n", "\t604800 ; Refresh\n", "\t86400 ; Retry\n",
   "\t2419200 ; Expire\n", "\t86400 ; Minimum TTL\n", ")\n\n",
   "@ IN NS " ++ SOA_NS_ENTRY ++ ".\n\n"]

/-- The nameserver's own subnet `mstbind_subnet` (src/main.py line 137). -/
def mstbindSubnet : String := pyJoin "." ((pySplit '.' HOST_IPV4).take 3)

/-- The octet-reversed nameserver address `reversed_host_ipv4`
(src/main.py line 138). -/
def reversedHostIpv4 : String := pyJoin "." (pySplit '.' HOST_IPV4).reverse

/-- Embedding of `write_reverse_zone_files` (src/main.py lines 133–150): for
each subnet of the index, the file name and the list of `f.write` calls. -/
def write_reverse_zone_files (rz : RevZones) : List (String × List String) :=
  rz.map fun p =>
    ("reverse_zone/db." ++ p.1 ++ ".arpa",
      reverseHeaderWrites
      ++ p.2.map (fun r =>
           ((pySplit '.' r.1).headD "") ++ "\tIN\tPTR\t" ++ r.2 ++ "." ++ DOMAIN_NAME ++ ".\n")
      ++ (if p.1 = mstbindSubnet then
            [((pySplit '.' reversedHostIpv4).headD "") ++ "\tIN\tPTR\t" ++ SOA_NS_ENTRY ++ ".\n"]
          else []))

/-! ### General lemmas about the emitter structure -/

theorem gen_bind9_eq_some {d : DnsData} {z : String} {ws : List String} :
    generate_bind9_zone d z = some ws ↔
    ∃ root soa ttl fws nws gs,
      lookupA "root" d = some root ∧ findSOA root.DNS_Records = some soa ∧
      lookupA "ttl" soa = some ttl ∧ soaFieldWrites soa = some fws ∧
      nsRecordWrites root.DNS_Records = some nws ∧
      collectGroups d ([], []) = some gs ∧
      ws = ["$TTL " ++ pyStripChar ')' ttl ++ "\n",
            "@ IN SOA " ++ SOA_NS_ENTRY ++ ". " ++ SOA_HOSTMASTER_ENTRY ++ " (\n"]
           ++ fws ++ [")\n\n", "@\tIN\tNS\t" ++ SOA_NS_ENTRY ++ ".\n\n"]
           ++ (if pyEndswith z HIGH_LEVEL_DOMAIN then
                 [SOA_NS_ENTRY ++ ".\tIN\tA\t" ++ HOST_IPV4 ++ "\n\n"] else [])
           ++ nws ++ ["\n"]
           ++ write_grouped_records "A" gs.1 ++ write_grouped_records "CNAME" gs.2 := by
  simp only [generate_bind9_zone, Option.bind_eq_bind', Option.bind_eq_some, Option.pure_def,
    Option.some.injEq]
  constructor
  · rintro ⟨root, h1, soa, h2, ttl, h3, fws, h4, nws, h5, gs, h6, h7⟩
    exact ⟨root, soa, ttl, fws, nws, gs, h1, h2, h3, h4, h5, h6, h7.symm⟩
  · rintro ⟨root, soa, ttl, fws, nws, gs, h1, h2, h3, h4, h5, h6, h7⟩
    exact ⟨root, h1, soa, h2, ttl, h3, fws, h4, nws, h5, gs, h6, h7.symm⟩

/-! ### Claim C7 -/

/-- Root SOA record whose `ttl` attribute has a leading parenthesis. -/
def c7soa : Dict :=
  [("type", "SOA"), ("ttl", ")86400)"), ("serial", "1"), ("refresh", "2"),
   ("retry", "3"), ("expire", "4"), ("minttl", "5")]

/-- Zone description holding only `c7soa` under the root node. -/
def c7data : DnsData := [("root", ⟨1, 0, [c7soa]⟩)]

/-- Claim C7 is false as stated: for the root SOA `ttl` attribute `")86400)"`,
stripping only trailing `)` characters would give `")86400"` and a directive
`"$TTL )86400\n"`, but the code (Python `strip(')')`, which strips both ends)
emits `"$TTL 86400\n"`: the leading character is not preserved. -/
theorem C7_counterexample :
    lookupA "ttl" c7soa = some ")86400)" ∧
    (generate_bind9_zone c7data "example.com").map (fun ws => ws.headD "") =
      some "$TTL 86400\n" ∧
    ("$TTL 86400\n" : String) ≠ "$TTL )86400\n" :=
  ⟨by decide, by decide, by decide⟩

/-- Claim C7 (amended): for every zone whose root node contains an SOA record,
the emitted `$TTL` directive value equals the SOA record's `ttl` attribute
with every leading and trailing `)` character stripped (Python `strip(')')`
removes the character from both ends). -/
theorem C7_ttl_directive_amended (d : DnsData) (z : String) (ws : List String)
    (root : ZoneNode) (soa : Dict) (ttl : String)
    (h1 : lookupA "root" d = some root) (h2 : findSOA root.DNS_Records = some soa)
    (h3 : lookupA "ttl" soa = some ttl) (hg : generate_bind9_zone d z = some ws) :
    ws.headD "" = "$TTL " ++ pyStripChar ')' ttl ++ "\n" := by
  obtain ⟨root', soa', ttl', fws, nws, gs, h1', h2', h3', _, _, _, rfl⟩ :=
    gen_bind9_eq_some.mp hg
  rw [h1] at h1'
  obtain rfl := Option.some.inj h1'
  rw [h2] at h2'
  obtain rfl := Option.some.inj h2'
  rw [h3] at h3'
  obtain rfl := Option.some.inj h3'
  rfl

/-- Root SOA record with an ordinary `ttl` attribute, for the C7 witness. -/
def c7wsoa : Dict :=
  [("type", "SOA"), ("ttl", "300"), ("serial", "1"), ("refresh", "2"),
   ("retry", "3"), ("expire", "4"), ("minttl", "5")]

/-- Root node of the C7 witness data. -/
def c7wroot : ZoneNode := ⟨1, 0, [c7wsoa]⟩

/-- Zone description of the C7 witness. -/
def c7wdata : DnsData := [("root", c7wroot)]

/-- Writes produced by `generate_bind9_zone` on the C7 witness data. -/
def c7wlist : List String :=
  ["$TTL 300\n", "@ IN SOA mstbind.example.com. hostmaster.example.com. (\n",
   "\t1\t; Serial\n", "\t2\t; Refresh\n", "\t3\t; Retry\n", "\t4\t; Expire\n",
   "\t5\t; Minttl\n", ")\n\n", "@\tIN\tNS\tmstbind.example.com.\n\n", "\n",
   "; A Records\n", "; CNAME Records\n"]

/-- Witness instantiating `C7_ttl_directive_amended` on concrete data. -/
theorem C7_ttl_directive_witness :
    lookupA "root" c7wdata = some c7wroot ∧
    findSOA c7wroot.DNS_Records = some c7wsoa ∧
    lookupA "ttl" c7wsoa = some "300" ∧
    generate_bind9_zone c7wdata "zzz" = some c7wlist ∧
    c7wlist.headD "" = "$TTL " ++ pyStripChar ')' "300" ++ "\n" :=
  ⟨by decide, by decide, by decide, by decide,
    C7_ttl_directive_amended c7wdata "zzz" c7wlist c7wroot c7wsoa "300"
      (by decide) (by decide) (by decide) (by decide)⟩

/-! ### String-level helper lemmas -/

theorem head_of_append (pre y : String) (c : Char) (h : pre.data.head? = some c) :
    (pre ++ y).data.head? = some c := by
  have hd : (pre ++ y).data = pre.data ++ y.data := rfl
  rw [hd]
  cases he : pre.data with
  | nil => rw [he] at h; exact absurd h (by simp)
  | cons a t => rw [he] at h; simpa using h

theorem ne_of_head (a b : String) (h : a.data.head? ≠ b.data.head?) : a ≠ b :=
  fun e => h (by rw [e])

theorem mem_data_append_left (a b : String) (c : Char) (h : c ∈ a.data) : c ∈ (a ++ b).data := by
  have hd : (a ++ b).data = a.data ++ b.data := rfl
  rw [hd]
  exact List.mem_append_left _ h

theorem mem_data_append_right (a b : String) (c : Char) (h : c ∈ b.data) : c ∈ (a ++ b).data := by
  have hd : (a ++ b).data = a.data ++ b.data := rfl
  rw [hd]
  exact List.mem_append_right _ h

theorem ne_of_space (a b : String) (ha : ' ' ∈ a.data) (hb : ' ' ∉ b.data) : b ≠ a :=
  fun e => hb (e ▸ ha)

theorem soaFieldWrites_eq_some {soa : Dict} {fws : List String} :
    soaFieldWrites soa = some fws →
    ∃ s rf rt ex mt,
      lookupA "serial" soa = some s ∧ lookupA "refresh" soa = some rf ∧
      lookupA "retry" soa = some rt ∧ lookupA "expire" soa = some ex ∧
      lookupA "minttl" soa = some mt ∧
      fws = ["\t" ++ s ++ "\t; Serial\n", "\t" ++ rf ++ "\t; Refresh\n",
             "\t" ++ rt ++ "\t; Retry\n", "\t" ++ ex ++ "\t; Expire\n",
             "\t" ++ mt ++ "\t; Minttl\n"] := by
  simp only [soaFieldWrites, Option.bind_eq_bind', Option.bind_eq_some, Option.pure_def,
    Option.some.injEq]
  rintro ⟨s, h1, rf, h2, rt, h3, ex, h4, mt, h5, h6⟩
  exact ⟨s, rf, rt, ex, mt, h1, h2, h3, h4, h5, h6.symm⟩

theorem soaFieldWrites_head {soa : Dict} {fws : List String} (h : soaFieldWrites soa = some fws) :
    ∀ x ∈ fws, x.data.head? = some '\t' := by
  obtain ⟨s, rf, rt, ex, mt, _, _, _, _, _, rfl⟩ := soaFieldWrites_eq_some h
  intro x hx
  simp only [List.mem_cons, List.not_mem_nil, or_false] at hx
  rcases hx with rfl | rfl | rfl | rfl | rfl <;>
    exact head_of_append _ _ _ (head_of_append _ _ _ (by decide))

theorem nsRecordWrites_head {rs : List Dict} {l : List String} :
    nsRecordWrites rs = some l → ∀ x ∈ l, x.data.head? = some '@' := by
  induction rs generalizing l with
  | nil => intro h; simp only [nsRecordWrites, Option.some.injEq] at h; subst h; simp
  | cons r rest ih =>
    intro h
    simp only [nsRecordWrites, Option.bind_eq_bind', Option.bind_eq_some] at h
    obtain ⟨t, ht, h⟩ := h
    by_cases he : t = "NS"
    · rw [if_pos he] at h
      simp only [Option.bind_eq_bind', Option.bind_eq_some, Option.pure_def,
        Option.some.injEq] at h
      obtain ⟨ttl, _, dm, _, tl, htl, rfl⟩ := h
      intro x hx
      rcases List.mem_cons.mp hx with rfl | hx
      · exact head_of_append _ _ _ (head_of_append _ _ _ (head_of_append _ _ _
          (head_of_append _ _ _ (by decide))))
      · exact ih htl x hx
    · rw [if_neg he] at h
      exact ih h

theorem wgr_mem {rt : String} {g : Grouping} {x : String}
    (hx : x ∈ write_grouped_records rt g) : x = "\n" ∨ ' ' ∈ x.data := by
  simp only [write_grouped_records, List.mem_cons, List.mem_flatten, List.mem_map] at hx
  rcases hx with rfl | ⟨blk, ⟨p, _, rfl⟩, hxb⟩
  · right
    exact mem_data_append_right _ _ _ (by decide)
  · rcases List.mem_cons.mp hxb with rfl | hxb
    · right
      exact mem_data_append_left _ _ _ (mem_data_append_left _ _ _ (by decide))
    · rcases List.mem_append.mp hxb with hxm | hxs
      · obtain ⟨r, _, rfl⟩ := List.mem_map.mp hxm
        right
        exact mem_data_append_left _ _ _ (mem_data_append_left _ _ _
          (mem_data_append_left _ _ _ (mem_data_append_left _ _ _
            (mem_data_append_right _ _ _ (by decide)))))
      · left
        simpa using hxs

theorem ne_of_heads (a b : String) (c₁ c₂ : Char) (ha : a.data.head? = some c₁)
    (hb : b.data.head? = some c₂) (hne : c₁ ≠ c₂) : a ≠ b := by
  intro e
  subst e
  rw [ha] at hb
  exact hne (Option.some.inj hb)

/-! ### Claim C5 -/

/-- Claim C5: the forward zone emitter writes the deployment nameserver's own
A record (the exact write `SOA_NS_ENTRY ++ ".\tIN\tA\t" ++ HOST_IPV4 ++ "\n\n"`)
if and only if the zone name ends with `HIGH_LEVEL_DOMAIN` (Python
`str.endswith`, a suffix match that includes equality); for any other zone
name no write of the file equals that record. -/
theorem C5_ns_a_record (d : DnsData) (z : String) (ws : List String)
    (hg : generate_bind9_zone d z = some ws) :
    (SOA_NS_ENTRY ++ ".\tIN\tA\t" ++ HOST_IPV4 ++ "\n\n") ∈ ws ↔
      pyEndswith z HIGH_LEVEL_DOMAIN = true := by
  obtain ⟨root, soa, ttl, fws, nws, gs, h1, h2, h3, h4, h5, h6, rfl⟩ := gen_bind9_eq_some.mp hg
  by_cases hc : pyEndswith z HIGH_LEVEL_DOMAIN = true
  · refine iff_of_true ?_ hc
    exact List.mem_append_left _ (List.mem_append_left _ (List.mem_append_left _
      (List.mem_append_left _ (List.mem_append_right _
        (by rw [if_pos hc]; exact List.mem_cons_self _ _)))))
  · refine iff_of_false ?_ hc
    intro hmem
    rw [if_neg hc] at hmem
    simp only [List.append_nil, List.mem_append, List.mem_cons, List.not_mem_nil,
      or_false] at hmem
    rcases hmem with ((((((hw | hw) | hfw) | (hw | hw)) | hns) | hnl) | hga) | hgc
    · exact ne_of_heads _ _ 'm' '$' (by decide)
        (head_of_append _ _ _ (head_of_append _ _ _ (by decide))) (by decide) hw
    · exact absurd hw (by decide)
    · exact absurd (soaFieldWrites_head h4 _ hfw) (by decide)
    · exact absurd hw (by decide)
    · exact absurd hw (by decide)
    · exact absurd (nsRecordWrites_head h5 _ hns) (by decide)
    · exact absurd hnl (by decide)
    · rcases wgr_mem hga with h | h
      · exact absurd h (by decide)
      · exact absurd h (by decide)
    · rcases wgr_mem hgc with h | h
      · exact absurd h (by decide)
      · exact absurd h (by decide)

/-- Zone description for the C5 witness: one root node with a full SOA. -/
def c5wdata : DnsData :=
  [("root", ⟨1, 0, [[("type", "SOA"), ("ttl", "300"), ("serial", "1"), ("refresh", "2"),
    ("retry", "3"), ("expire", "4"), ("minttl", "5")]]⟩)]

/-- Writes produced on the C5 witness data for zone name `sub.example.com`. -/
def c5wlist : List String :=
  ["$TTL 300\n", "@ IN SOA mstbind.example.com. hostmaster.example.com. (\n",
   "\t1\t; Serial\n", "\t2\t; Refresh\n", "\t3\t; Retry\n", "\t4\t; Expire\n",
   "\t5\t; Minttl\n", ")\n\n", "@\tIN\tNS\tmstbind.example.com.\n\n",
   "mstbind.example.com.\tIN\tA\t192.168.0.0.\n\n", "\n",
   "; A Records\n", "; CNAME Records\n"]

/-- Witness instantiating `C5_ns_a_record` on concrete data. -/
theorem C5_ns_a_record_witness :
    generate_bind9_zone c5wdata "sub.example.com" = some c5wlist ∧
    ((SOA_NS_ENTRY ++ ".\tIN\tA\t" ++ HOST_IPV4 ++ "\n\n") ∈ c5wlist ↔
      pyEndswith "sub.example.com" HIGH_LEVEL_DOMAIN = true) :=
  ⟨by decide, C5_ns_a_record c5wdata "sub.example.com" c5wlist (by decide)⟩

/-! ### Claim C8 -/

/-- Claim C8: a reverse zone file gets exactly one extra PTR record, appended
after all index-derived PTR lines, precisely when its subnet equals the
nameserver's own subnet `"192.168.0"` (the first three dot-fields of
`HOST_IPV4`); the record's key is the first dot-field of the octet-reversed
`HOST_IPV4`, which equals the last dot-field of `HOST_IPV4` (the empty
string, because the constant ends in a dot) and its target is the
nameserver's own name.  For every other subnet the writes are exactly the
header plus the index-derived PTR lines, with no extra record. -/
theorem C8_mstbind_ptr :
    mstbindSubnet = "192.168.0" ∧
    (pySplit '.' reversedHostIpv4).headD "" = (pySplit '.' HOST_IPV4).getLastD "" ∧
    (pySplit '.' reversedHostIpv4).headD "" = "" ∧
    ∀ (rz : RevZones) (subnet : String) (recs : List (String × String)),
      (subnet, recs) ∈ rz →
      ∃ ws, ("reverse_zone/db." ++ subnet ++ ".arpa", ws) ∈ write_reverse_zone_files rz ∧
        (subnet = mstbindSubnet →
          ws = reverseHeaderWrites
               ++ recs.map (fun r =>
                    ((pySplit '.' r.1).headD "") ++ "\tIN\tPTR\t" ++ r.2 ++ "."
                      ++ DOMAIN_NAME ++ ".\n")
               ++ [((pySplit '.' reversedHostIpv4).headD "") ++ "\tIN\tPTR\t"
                    ++ SOA_NS_ENTRY ++ ".\n"]) ∧
        (subnet ≠ mstbindSubnet →
          ws = reverseHeaderWrites
               ++ recs.map (fun r =>
                    ((pySplit '.' r.1).headD "") ++ "\tIN\tPTR\t" ++ r.2 ++ "."
                      ++ DOMAIN_NAME ++ ".\n")) := by
  refine ⟨by decide, by decide, by decide, ?_⟩
  intro rz subnet recs h
  refine ⟨_, List.mem_map_of_mem _ h, ?_, ?_⟩
  · intro he
    simp only [if_pos he, List.append_nil]
  · intro he
    simp only [if_neg he, List.append_nil]

/-- Reverse index used by the C8 witness. -/
def c8rz : RevZones :=
  [("192.168.0", [("5.0.168.192", "host1")]), ("10.0.0", [("5.0.0.10", "web1")])]

/-- Witness instantiating the quantified part of `C8_mstbind_ptr` on the
nameserver's own subnet. -/
theorem C8_mstbind_ptr_witness :
    ("192.168.0", [("5.0.168.192", "host1")]) ∈ c8rz ∧
    ∃ ws, ("reverse_zone/db." ++ "192.168.0" ++ ".arpa", ws) ∈ write_reverse_zone_files c8rz ∧
      ("192.168.0" = mstbindSubnet →
        ws = reverseHeaderWrites
             ++ [("5.0.168.192", "host1")].map (fun r =>
                  ((pySplit '.' r.1).headD "") ++ "\tIN\tPTR\t" ++ r.2 ++ "."
                    ++ DOMAIN_NAME ++ ".\n")
             ++ [((pySplit '.' reversedHostIpv4).headD "") ++ "\tIN\tPTR\t"
                  ++ SOA_NS_ENTRY ++ ".\n"]) ∧
      ("192.168.0" ≠ mstbindSubnet →
        ws = reverseHeaderWrites
             ++ [("5.0.168.192", "host1")].map (fun r =>
                  ((pySplit '.' r.1).headD "") ++ "\tIN\tPTR\t" ++ r.2 ++ "."
                    ++ DOMAIN_NAME ++ ".\n")) :=
  ⟨by decide,
    C8_mstbind_ptr.2.2.2 c8rz "192.168.0" [("5.0.168.192", "host1")] (by decide)⟩

/-! ### Claim C10 -/

/-- Remove every record whose `type` entry is `"SOA"`. -/
def removeSOAs : List Dict → List Dict
  | [] => []
  | r :: rs => if lookupA "type" r = some "SOA" then removeSOAs rs else r :: removeSOAs rs

/-- Keep everything up to and including the first record typed `"SOA"`, then
drop every later record typed `"SOA"`. -/
def dropExtraSOA : List Dict → List Dict
  | [] => []
  | r :: rs =>
    if lookupA "type" r = some "SOA" then r :: removeSOAs rs else r :: dropExtraSOA rs

/-- The node transformation applied to the root node by `pruneRoot`. -/
def nodePrune (n : ZoneNode) : ZoneNode :=
  ⟨n.Records, n.Children, dropExtraSOA n.DNS_Records⟩

/-- Delete all SOA records after the first one from the root node of a zone
description; all other nodes are untouched. -/
def pruneRoot (d : DnsData) : DnsData :=
  d.map fun p => if p.1 = "root" then (p.1, nodePrune p.2) else p

theorem lookupA_pruneRoot (d : DnsData) :
    lookupA "root" (pruneRoot d) = Option.map nodePrune (lookupA "root" d) := by
  induction d with
  | nil => rfl
  | cons p rest ih =>
    obtain ⟨nm, node⟩ := p
    by_cases h : nm = "root"
    · subst h
      simp [pruneRoot, lookupA]
    · simp only [pruneRoot, List.map_cons]
      rw [if_neg h]
      simp only [lookupA, if_neg h]
      exact ih

theorem findSOA_dropExtra (rs : List Dict) : findSOA (dropExtraSOA rs) = findSOA rs := by
  induction rs with
  | nil => rfl
  | cons r rest ih =>
    cases ht : lookupA "type" r with
    | none => simp [dropExtraSOA, findSOA, ht]
    | some t =>
      by_cases he : t = "SOA"
      · subst he
        simp [dropExtraSOA, findSOA, ht]
      · simp only [dropExtraSOA, findSOA, ht, Option.some.injEq, if_neg he]
        exact ih

theorem nsRecordWrites_removeSOAs (rs : List Dict) :
    nsRecordWrites (removeSOAs rs) = nsRecordWrites rs := by
  induction rs with
  | nil => rfl
  | cons r rest ih =>
    cases ht : lookupA "type" r with
    | none => simp [removeSOAs, nsRecordWrites, ht]
    | some t =>
      by_cases he : t = "SOA"
      · subst he
        simp only [removeSOAs, nsRecordWrites, ht, Option.some.injEq, if_pos rfl,
          Option.bind_eq_bind', Option.some_bind]
        rw [if_neg (by decide : ¬ ("SOA" : String) = "NS")]
        exact ih
      · simp only [removeSOAs, nsRecordWrites, ht, Option.some.injEq, if_neg he,
          Option.bind_eq_bind', Option.some_bind]
        by_cases hn : t = "NS"
        · rw [if_pos hn, if_pos hn, ih]
        · rw [if_neg hn, if_neg hn]
          exact ih

theorem nsRecordWrites_dropExtra (rs : List Dict) :
    nsRecordWrites (dropExtraSOA rs) = nsRecordWrites rs := by
  induction rs with
  | nil => rfl
  | cons r rest ih =>
    cases ht : lookupA "type" r with
    | none => simp [dropExtraSOA, nsRecordWrites, ht]
    | some t =>
      by_cases he : t = "SOA"
      · subst he
        simp only [dropExtraSOA, nsRecordWrites, ht, Option.some.injEq, if_pos rfl,
          Option.bind_eq_bind', Option.some_bind]
        rw [if_neg (by decide : ¬ ("SOA" : String) = "NS")]
        exact nsRecordWrites_removeSOAs rest
      · simp only [dropExtraSOA, nsRecordWrites, ht, Option.some.injEq, if_neg he,
          Option.bind_eq_bind', Option.some_bind]
        by_cases hn : t = "NS"
        · rw [if_pos hn, if_pos hn, ih]
        · rw [if_neg hn, if_neg hn]
          exact ih

theorem collectGroups_pruneRoot (d : DnsData) (acc : Grouping × Grouping) :
    collectGroups (pruneRoot d) acc = collectGroups d acc := by
  induction d generalizing acc with
  | nil => rfl
  | cons p rest ih =>
    obtain ⟨dm, node⟩ := p
    simp only [pruneRoot, List.map_cons]
    by_cases h : dm = "root"
    · rw [if_pos h]
      simp only [collectGroups, if_pos h]
      exact ih acc
    · rw [if_neg h]
      simp only [collectGroups, if_neg h]
      cases hc : collectRecords dm node.DNS_Records acc with
      | none => simp [Option.bind_eq_bind', hc]
      | some acc₁ =>
        simp only [Option.bind_eq_bind', hc, Option.some_bind]
        exact ih acc₁

/-- Claim C10: the forward zone emitter uses exactly the first SOA record of
the root node (first conjunct of the conclusion: `findSOA` returns the first
record typed `"SOA"` when everything before it has a different type), and
every SOA record after the first contributes nothing to the output: deleting
all of them (`pruneRoot`) leaves the writes of `generate_bind9_zone` — the
`$TTL` directive, the SOA body, and everything after — unchanged. -/
theorem C10_first_soa_wins :
    (∀ (d : DnsData) (z : String),
      generate_bind9_zone d z = generate_bind9_zone (pruneRoot d) z) ∧
    (∀ (pre : List Dict) (soa : Dict) (rest : List Dict),
      (∀ r ∈ pre, ∃ t, lookupA "type" r = some t ∧ t ≠ "SOA") →
      lookupA "type" soa = some "SOA" →
      findSOA (pre ++ soa :: rest) = some soa) := by
  constructor
  · intro d z
    simp only [generate_bind9_zone, lookupA_pruneRoot]
    cases h : lookupA "root" d with
    | none => rfl
    | some root =>
      simp only [Option.map_some', Option.bind_eq_bind', Option.some_bind, nodePrune,
        findSOA_dropExtra, nsRecordWrites_dropExtra, collectGroups_pruneRoot]
  · intro pre soa rest hpre hsoa
    induction pre with
    | nil => simp [findSOA, hsoa]
    | cons r pre ih =>
      obtain ⟨t, ht, htne⟩ := hpre r (List.mem_cons_self r pre)
      simp only [List.cons_append, findSOA, ht, if_neg htne]
      exact ih fun x hx => hpre x (List.mem_cons_of_mem _ hx)

/-- An NS-typed record used by the C10 witness. -/
def c10ns : Dict := [("type", "NS"), ("ttl", "1"), ("domain", "ns1.example.com.")]

/-- The first SOA record of the C10 witness. -/
def c10soa : Dict := [("type", "SOA"), ("serial", "1")]

/-- A second, later SOA record of the C10 witness. -/
def c10soa2 : Dict := [("type", "SOA"), ("serial", "2")]

/-- Witness instantiating the first-SOA part of `C10_first_soa_wins`. -/
theorem C10_first_soa_wins_witness :
    lookupA "type" c10soa = some "SOA" ∧
    findSOA ([c10ns] ++ c10soa :: [c10soa2]) = some c10soa :=
  ⟨by decide,
    C10_first_soa_wins.2 [c10ns] c10soa [c10soa2]
      (fun r hr => ⟨"NS", by rw [List.mem_singleton.mp hr]; decide, by decide⟩)
      (by decide)⟩

/-! ### Claim C9 -/

theorem collectRecords_cons_some {dm : String} {x : Dict} {rest : List Dict}
    {acc acc' : Grouping × Grouping}
    (h : collectRecords dm (x :: rest) acc = some acc') :
    ∃ acc₁, collectRecords dm rest acc₁ = some acc' := by
  simp only [collectRecords, Option.bind_eq_bind', Option.bind_eq_some] at h
  obtain ⟨t, ht, h⟩ := h
  by_cases hA : t = "A"
  · rw [if_pos hA] at h
    simp only [Option.bind_eq_bind', Option.bind_eq_some] at h
    obtain ⟨ttl, _, ip, _, h⟩ := h
    exact ⟨_, h⟩
  · rw [if_neg hA] at h
    by_cases hC : t = "CNAME"
    · rw [if_pos hC] at h
      simp only [Option.bind_eq_bind', Option.bind_eq_some] at h
      obtain ⟨ttl, _, dom, _, h⟩ := h
      exact ⟨_, h⟩
    · rw [if_neg hC] at h
      exact ⟨_, h⟩

theorem collectRecords_ttl {dm : String} {rs : List Dict} {acc acc' : Grouping × Grouping}
    (h : collectRecords dm rs acc = some acc') :
    ∀ r ∈ rs, (lookupA "type" r = some "A" ∨ lookupA "type" r = some "CNAME") →
      lookupA "ttl" r ≠ none := by
  induction rs generalizing acc with
  | nil => intro r hr; cases hr
  | cons x rest ih =>
    intro r hr hty
    rcases List.mem_cons.mp hr with rfl | hr
    · intro hcon
      rcases hty with hty | hty
      · simp [collectRecords, hty, hcon] at h
      · simp [collectRecords, hty, hcon] at h
    · obtain ⟨acc₁, h₁⟩ := collectRecords_cons_some h
      exact ih h₁ r hr hty

theorem collectGroups_mem_some {d : DnsData} {acc gs : Grouping × Grouping}
    (h : collectGroups d acc = some gs) :
    ∀ dm node, (dm, node) ∈ d → dm ≠ "root" →
      ∃ a b, collectRecords dm node.DNS_Records a = some b := by
  induction d generalizing acc with
  | nil => intro dm node hm; cases hm
  | cons p rest ih =>
    obtain ⟨pm, pnode⟩ := p
    intro dm node hm hroot
    by_cases hp : pm = "root"
    · rw [collectGroups, if_pos hp] at h
      rcases List.mem_cons.mp hm with he | hm
      · exact absurd ((congrArg Prod.fst he).trans hp) hroot
      · exact ih h dm node hm hroot
    · rw [collectGroups, if_neg hp] at h
      simp only [Option.bind_eq_bind', Option.bind_eq_some] at h
      obtain ⟨acc₁, hcr, h₂⟩ := h
      rcases List.mem_cons.mp hm with he | hm
      · have e1 : dm = pm := congrArg Prod.fst he
        have e2 : node = pnode := congrArg Prod.snd he
        subst e1
        subst e2
        exact ⟨acc, acc₁, hcr⟩
      · exact ih h₂ dm node hm hroot

/-- Claim C9: the forward zone emitter fails (no writes are produced — Python
raises `KeyError`) whenever an A or CNAME record under a non-root node lacks a
`ttl` attribute, or the root's first SOA record lacks any of the attributes
`ttl`, `serial`, `refresh`, `retry`, `expire`, `minttl`. -/
theorem C9_missing_attrs_fatal :
    (∀ (d : DnsData) (z : String),
      (∃ dm node r, (dm, node) ∈ d ∧ dm ≠ "root" ∧ r ∈ node.DNS_Records ∧
        (lookupA "type" r = some "A" ∨ lookupA "type" r = some "CNAME") ∧
        lookupA "ttl" r = none) →
      generate_bind9_zone d z = none) ∧
    (∀ (d : DnsData) (z : String) (root : ZoneNode) (soa : Dict) (f : String),
      lookupA "root" d = some root → findSOA root.DNS_Records = some soa →
      f ∈ ["ttl", "serial", "refresh", "retry", "expire", "minttl"] →
      lookupA f soa = none →
      generate_bind9_zone d z = none) := by
  constructor
  · rintro d z ⟨dm, node, r, hmem, hroot, hrrec, hty, httl⟩
    cases hg : generate_bind9_zone d z with
    | none => rfl
    | some ws =>
      obtain ⟨_, _, _, _, _, gs, _, _, _, _, _, h6, _⟩ := gen_bind9_eq_some.mp hg
      obtain ⟨a, b, hcr⟩ := collectGroups_mem_some h6 dm node hmem hroot
      exact absurd httl (collectRecords_ttl hcr r hrrec hty)
  · intro d z root soa f h1 h2 hf hnone
    cases hg : generate_bind9_zone d z with
    | none => rfl
    | some ws =>
      obtain ⟨root', soa', ttl, fws, _, _, h1', h2', h3', h4', _, _, _⟩ :=
        gen_bind9_eq_some.mp hg
      rw [h1] at h1'
      obtain rfl := Option.some.inj h1'
      rw [h2] at h2'
      obtain rfl := Option.some.inj h2'
      obtain ⟨s, rf, rt, ex, mt, hs, hrf, hrt, hex, hmt, _⟩ := soaFieldWrites_eq_some h4'
      simp only [List.mem_cons, List.not_mem_nil, or_false] at hf
      rcases hf with rfl | rfl | rfl | rfl | rfl | rfl
      · rw [hnone] at h3'; cases h3'
      · rw [hnone] at hs; cases hs
      · rw [hnone] at hrf; cases hrf
      · rw [hnone] at hrt; cases hrt
      · rw [hnone] at hex; cases hex
      · rw [hnone] at hmt; cases hmt

/-- An A record without a `ttl` attribute, for the C9 witness. -/
def c9bad : Dict := [("type", "A"), ("ip", "1.2.3.4")]

/-- A non-root node holding `c9bad`. -/
def c9node : ZoneNode := ⟨1, 0, [c9bad]⟩

/-- Zone description of the C9 witness: a complete root SOA plus a non-root
A record lacking `ttl`. -/
def c9data : DnsData :=
  [("root", ⟨1, 1, [[("type", "SOA"), ("ttl", "300"), ("serial", "1"), ("refresh", "2"),
    ("retry", "3"), ("expire", "4"), ("minttl", "5")]]⟩),
   ("web", c9node)]

/-- Witness instantiating the first part of `C9_missing_attrs_fatal`. -/
theorem C9_missing_attrs_fatal_witness :
    lookupA "type" c9bad = some "A" ∧ lookupA "ttl" c9bad = none ∧
    generate_bind9_zone c9data "example.com" = none :=
  ⟨by decide, by decide,
    C9_missing_attrs_fatal.1 c9data "example.com"
      ⟨"web", c9node, c9bad, by decide, by decide, by decide, Or.inl (by decide), by decide⟩⟩

/-! ### Claim C6 -/

/-- Values of the pairs keyed `k`, in order. -/
def selVals {α : Type} (k : String) : List (String × α) → List α
  | [] => []
  | q :: rest => if q.1 = k then q.2 :: selVals k rest else selVals k rest

/-- Fold a pair stream into buckets, Python `defaultdict(list)` style. -/
def groupPairs {α : Type} (ps : List (String × α)) (g₀ : Buckets α) : Buckets α :=
  ps.foldl (fun g q => bucketAdd g q.1 q.2) g₀

/-- First-occurrence key folding, continuing from already-seen keys. -/
def keysAcc (ks : List String) (l : List String) : List String :=
  l.foldl (fun acc t => if t ∈ acc then acc else acc ++ [t]) ks

/-- Distinct keys of a stream in first-occurrence order. -/
def keysOf (l : List String) : List String := keysAcc [] l

theorem bucketAdd_map_fst {α : Type} (g : Buckets α) (k : String) (v : α) :
    (bucketAdd g k v).map Prod.fst =
      if k ∈ g.map Prod.fst then g.map Prod.fst else g.map Prod.fst ++ [k] := by
  by_cases h : k ∈ g.map Prod.fst
  · rw [if_pos h, bucketAdd, if_pos h]
    rw [List.map_map]
    refine List.map_congr_left ?_
    intro p _
    by_cases hp : p.1 = k
    · simp [Function.comp, hp]
    · simp [Function.comp, hp]
  · rw [if_neg h, bucketAdd, if_neg h, List.map_append]
    rfl

theorem lookupA_isSome_iff {α : Type} (k : String) (g : List (String × α)) :
    (lookupA k g).isSome = true ↔ k ∈ g.map Prod.fst := by
  induction g with
  | nil => simp [lookupA]
  | cons p rest ih =>
    by_cases h : p.1 = k
    · simp [lookupA, h]
    · simp only [lookupA, if_neg h, List.map_cons, List.mem_cons]
      rw [ih]
      constructor
      · exact Or.inr
      · rintro (he | hm)
        · exact absurd he.symm h
        · exact hm

theorem lookupA_bucketAdd_self {α : Type} (g : Buckets α) (k : String) (v : α) :
    lookupA k (bucketAdd g k v) = some ((lookupA k g).getD [] ++ [v]) := by
  rw [bucketAdd]
  by_cases h : k ∈ g.map Prod.fst
  · rw [if_pos h]
    induction g with
    | nil => simp at h
    | cons p rest ih =>
      obtain ⟨pk, pv⟩ := p
      by_cases hp : pk = k
      · simp only [List.map_cons]
        rw [if_pos hp, lookupA, lookupA, if_pos hp, if_pos hp]
        rfl
      · simp only [List.map_cons]
        rw [if_neg hp, lookupA, lookupA, if_neg hp, if_neg hp]
        simp only [List.map_cons, List.mem_cons] at h
        rcases h with he | hm
        · exact absurd he.symm hp
        · exact ih hm
  · rw [if_neg h]
    have hn : lookupA k g = none := by
      cases hl : lookupA k g with
      | none => rfl
      | some w => exact absurd ((lookupA_isSome_iff k g).mp (by rw [hl]; rfl)) h
    rw [hn]
    clear h
    induction g with
    | nil =>
      rw [List.nil_append, lookupA, if_pos rfl]
      rfl
    | cons p rest ih =>
      obtain ⟨pk, pv⟩ := p
      have hne : ¬ pk = k := by
        intro e
        rw [lookupA, if_pos e] at hn
        exact Option.noConfusion hn
      rw [lookupA, if_neg hne] at hn
      rw [List.cons_append, lookupA, if_neg hne]
      exact ih hn

theorem lookupA_bucketAdd_ne {α : Type} (g : Buckets α) (k k' : String) (v : α)
    (h : k' ≠ k) : lookupA k' (bucketAdd g k v) = lookupA k' g := by
  rw [bucketAdd]
  by_cases hm : k ∈ g.map Prod.fst
  · rw [if_pos hm]
    clear hm
    induction g with
    | nil => rfl
    | cons p rest ih =>
      obtain ⟨pk, pv⟩ := p
      by_cases hp : pk = k
      · simp only [List.map_cons]
        rw [if_pos hp]
        have hne : ¬ pk = k' := fun e => h (e.symm.trans hp)
        rw [lookupA, lookupA, if_neg hne, if_neg hne]
        exact ih
      · simp only [List.map_cons]
        rw [if_neg hp, lookupA, lookupA]
        by_cases hq : pk = k'
        · rw [if_pos hq, if_pos hq]
        · rw [if_neg hq, if_neg hq]
          exact ih
  · rw [if_neg hm]
    clear hm
    induction g with
    | nil =>
      rw [List.nil_append, lookupA, lookupA, if_neg (fun e => h e.symm)]
      rfl
    | cons p rest ih =>
      obtain ⟨pk, pv⟩ := p
      rw [List.cons_append, lookupA, lookupA]
      by_cases hq : pk = k'
      · rw [if_pos hq, if_pos hq]
      · rw [if_neg hq, if_neg hq]
        exact ih

theorem groupPairs_cons {α : Type} (q : String × α) (ps : List (String × α)) (g₀ : Buckets α) :
    groupPairs (q :: ps) g₀ = groupPairs ps (bucketAdd g₀ q.1 q.2) := rfl

theorem groupPairs_lookup {α : Type} (k : String) (ps : List (String × α)) (g₀ : Buckets α) :
    lookupA k (groupPairs ps g₀) =
      match lookupA k g₀, selVals k ps with
      | some vs, sel => some (vs ++ sel)
      | none, [] => none
      | none, s :: sel => some (s :: sel) := by
  induction ps generalizing g₀ with
  | nil =>
    cases h : lookupA k g₀ with
    | none => simp [groupPairs, selVals, h]
    | some vs => simp [groupPairs, selVals, h]
  | cons q ps ih =>
    obtain ⟨qk, qv⟩ := q
    rw [groupPairs_cons]
    by_cases hq : qk = k
    · subst hq
      rw [ih, lookupA_bucketAdd_self]
      cases h : lookupA qk g₀ with
      | none =>
        simp only [selVals, if_pos rfl, Option.getD_none, List.nil_append]
        cases hs : selVals qk ps <;> simp
      | some vs =>
        simp only [selVals, if_pos rfl, Option.getD_some]
        cases hs : selVals qk ps <;> simp
    · rw [ih, lookupA_bucketAdd_ne _ _ _ _ (fun e => hq e.symm)]
      simp only [selVals, if_neg hq]

theorem groupPairs_map_fst {α : Type} (ps : List (String × α)) (g₀ : Buckets α) :
    (groupPairs ps g₀).map Prod.fst = keysAcc (g₀.map Prod.fst) (ps.map Prod.fst) := by
  induction ps generalizing g₀ with
  | nil => rfl
  | cons q ps ih =>
    rw [groupPairs_cons, ih, bucketAdd_map_fst]
    rfl

theorem keysAcc_nodup (l : List String) (ks : List String) (h : ks.Nodup) :
    (keysAcc ks l).Nodup := by
  induction l generalizing ks with
  | nil => exact h
  | cons t l ih =>
    show (keysAcc (if t ∈ ks then ks else ks ++ [t]) l).Nodup
    by_cases hm : t ∈ ks
    · rw [if_pos hm]
      exact ih ks h
    · rw [if_neg hm]
      refine ih _ ?_
      rw [List.nodup_append]
      exact ⟨h, List.nodup_singleton t, by simp [List.disjoint_singleton, hm]⟩

/-- The `(stripped-ttl, (domain, ip))` stream of the A records of one node,
in declaration order. -/
def nodeFlatA (dm : String) : List Dict → List (String × (String × String))
  | [] => []
  | r :: rs =>
    match lookupA "type" r with
    | some t =>
      if t = "A" then
        match lookupA "ttl" r, lookupA "ip" r with
        | some ttl, some ip => (pyStripChar ')' ttl, (dm, ip)) :: nodeFlatA dm rs
        | _, _ => nodeFlatA dm rs
      else nodeFlatA dm rs
    | none => nodeFlatA dm rs

/-- The `(stripped-ttl, (domain, target))` stream of the CNAME records of one
node, in declaration order. -/
def nodeFlatC (dm : String) : List Dict → List (String × (String × String))
  | [] => []
  | r :: rs =>
    match lookupA "type" r with
    | some t =>
      if t = "CNAME" then
        match lookupA "ttl" r, lookupA "domain" r with
        | some ttl, some dom => (pyStripChar ')' ttl, (dm, dom)) :: nodeFlatC dm rs
        | _, _ => nodeFlatC dm rs
      else nodeFlatC dm rs
    | none => nodeFlatC dm rs

/-- All A-record pairs of the non-root nodes, nodes in source order and
records in declaration order. -/
def flatA : DnsData → List (String × (String × String))
  | [] => []
  | (dm, node) :: rest =>
    (if dm = "root" then [] else nodeFlatA dm node.DNS_Records) ++ flatA rest

/-- All CNAME-record pairs of the non-root nodes, in the same order. -/
def flatC : DnsData → List (String × (String × String))
  | [] => []
  | (dm, node) :: rest =>
    (if dm = "root" then [] else nodeFlatC dm node.DNS_Records) ++ flatC rest

theorem groupPairs_append {α : Type} (xs ys : List (String × α)) (g₀ : Buckets α) :
    groupPairs (xs ++ ys) g₀ = groupPairs ys (groupPairs xs g₀) := by
  simp [groupPairs, List.foldl_append]

theorem collectRecords_eq_groupPairs {dm : String} {rs : List Dict}
    {acc acc' : Grouping × Grouping} (h : collectRecords dm rs acc = some acc') :
    acc' = (groupPairs (nodeFlatA dm rs) acc.1, groupPairs (nodeFlatC dm rs) acc.2) := by
  induction rs generalizing acc with
  | nil =>
    rw [collectRecords] at h
    obtain rfl := Option.some.inj h
    rfl
  | cons r rest ih =>
    rw [collectRecords] at h
    cases ht : lookupA "type" r with
    | none => rw [ht] at h; cases h
    | some t =>
      rw [ht] at h
      simp only [Option.bind_eq_bind', Option.some_bind] at h
      by_cases hA : t = "A"
      · subst hA
        rw [if_pos rfl] at h
        cases httl : lookupA "ttl" r with
        | none => rw [httl] at h; cases h
        | some ttl =>
          rw [httl] at h
          simp only [Option.bind_eq_bind', Option.some_bind] at h
          cases hip : lookupA "ip" r with
          | none => rw [hip] at h; cases h
          | some ip =>
            rw [hip] at h
            simp only [Option.bind_eq_bind', Option.some_bind] at h
            rw [ih h]
            simp [nodeFlatA, nodeFlatC, ht, httl, hip, groupPairs_cons]
      · rw [if_neg hA] at h
        by_cases hC : t = "CNAME"
        · subst hC
          rw [if_pos rfl] at h
          cases httl : lookupA "ttl" r with
          | none => rw [httl] at h; cases h
          | some ttl =>
            rw [httl] at h
            simp only [Option.bind_eq_bind', Option.some_bind] at h
            cases hdom : lookupA "domain" r with
            | none => rw [hdom] at h; cases h
            | some dom =>
              rw [hdom] at h
              simp only [Option.bind_eq_bind', Option.some_bind] at h
              rw [ih h]
              simp [nodeFlatA, nodeFlatC, ht, httl, hdom, groupPairs_cons]
        · rw [if_neg hC] at h
          rw [ih h]
          simp [nodeFlatA, nodeFlatC, ht, hA, hC]

theorem collectGroups_eq_groupPairs {d : DnsData} {acc gs : Grouping × Grouping}
    (h : collectGroups d acc = some gs) :
    gs = (groupPairs (flatA d) acc.1, groupPairs (flatC d) acc.2) := by
  induction d generalizing acc with
  | nil =>
    rw [collectGroups] at h
    obtain rfl := Option.some.inj h
    rfl
  | cons p rest ih =>
    obtain ⟨dm, node⟩ := p
    rw [collectGroups] at h
    by_cases hr : dm = "root"
    · rw [if_pos hr] at h
      rw [ih h, flatA, flatC, if_pos hr, if_pos hr, List.nil_append, List.nil_append]
    · rw [if_neg hr] at h
      simp only [Option.bind_eq_bind', Option.bind_eq_some] at h
      obtain ⟨acc₁, h₁, h₂⟩ := h
      rw [ih h₂, collectRecords_eq_groupPairs h₁]
      rw [flatA, flatC, if_neg hr, if_neg hr, groupPairs_append, groupPairs_append]

/-- Claim C6: under a successful forward-zone run, (a) the grouping dictionaries
for A and CNAME records have pairwise distinct TTL keys, so all records of one
type sharing a stripped `ttl` value land in the same sub-group; (b) sub-group
order is first-occurrence order of the TTL value over the record stream taken
in source node order then declaration order (`flatA`/`flatC`); (c) each
sub-group's content is exactly that stream filtered to its TTL, in stream
order; and (d) the emitted file ends with one block per record type, the A
block before the CNAME block, each laid out by `write_grouped_records` from
those groupings. -/
theorem C6_ttl_grouping (d : DnsData) (z : String) (ws : List String)
    (ga gc : Grouping) (hc : collectGroups d ([], []) = some (ga, gc))
    (hg : generate_bind9_zone d z = some ws) :
    (ga.map Prod.fst).Nodup ∧ (gc.map Prod.fst).Nodup ∧
    ga.map Prod.fst = keysOf ((flatA d).map Prod.fst) ∧
    gc.map Prod.fst = keysOf ((flatC d).map Prod.fst) ∧
    (∀ t, lookupA t ga =
      if selVals t (flatA d) = [] then none else some (selVals t (flatA d))) ∧
    (∀ t, lookupA t gc =
      if selVals t (flatC d) = [] then none else some (selVals t (flatC d))) ∧
    (∃ pre, ws = pre ++ write_grouped_records "A" ga ++ write_grouped_records "CNAME" gc) := by
  have hpair := collectGroups_eq_groupPairs hc
  have hga : ga = groupPairs (flatA d) [] := congrArg Prod.fst hpair
  have hgc : gc = groupPairs (flatC d) [] := congrArg Prod.snd hpair
  subst hga
  subst hgc
  refine ⟨?_, ?_, ?_, ?_, ?_, ?_, ?_⟩
  · rw [groupPairs_map_fst]
    exact keysAcc_nodup _ _ List.nodup_nil
  · rw [groupPairs_map_fst]
    exact keysAcc_nodup _ _ List.nodup_nil
  · rw [groupPairs_map_fst]
    rfl
  · rw [groupPairs_map_fst]
    rfl
  · intro t
    rw [groupPairs_lookup]
    cases hs : selVals t (flatA d) with
    | nil => simp [lookupA]
    | cons s sel => simp [lookupA]
  · intro t
    rw [groupPairs_lookup]
    cases hs : selVals t (flatC d) with
    | nil => simp [lookupA]
    | cons s sel => simp [lookupA]
  · obtain ⟨root, soa, ttl, fws, nws, gs, _, _, _, _, _, h6, hws⟩ := gen_bind9_eq_some.mp hg
    rw [hc] at h6
    obtain rfl := Option.some.inj h6
    exact ⟨_, hws⟩

/-- Zone description of the C6 witness: two A TTL groups and one CNAME group. -/
def c6data : DnsData :=
  [("root", ⟨1, 2, [[("type", "SOA"), ("ttl", "300"), ("serial", "1"), ("refresh", "2"),
      ("retry", "3"), ("expire", "4"), ("minttl", "5")]]⟩),
   ("w1", ⟨1, 0, [[("type", "A"), ("ip", "1.1.1.1"), ("ttl", "300")]]⟩),
   ("w2", ⟨3, 0, [[("type", "A"), ("ip", "2.2.2.2"), ("ttl", "600")],
                  [("type", "A"), ("ip", "3.3.3.3"), ("ttl", "300")],
                  [("type", "CNAME"), ("domain", "w1"), ("ttl", "300")]]⟩)]

/-- A-record grouping computed on the C6 witness data. -/
def c6ga : Grouping := [("300", [("w1", "1.1.1.1"), ("w2", "3.3.3.3")]), ("600", [("w2", "2.2.2.2")])]

/-- CNAME-record grouping computed on the C6 witness data. -/
def c6gc : Grouping := [("300", [("w2", "w1")])]

/-- Writes produced on the C6 witness data. -/
def c6ws : List String :=
  ["$TTL 300\n", "@ IN SOA mstbind.example.com. hostmaster.example.com. (\n",
   "\t1\t; Serial\n", "\t2\t; Refresh\n", "\t3\t; Retry\n", "\t4\t; Expire\n",
   "\t5\t; Minttl\n", ")\n\n", "@\tIN\tNS\tmstbind.example.com.\n\n", "\n",
   "; A Records\n", "; TTL 300\n", "w1\t300\tIN A\t1.1.1.1\n", "w2\t300\tIN A\t3.3.3.3\n",
   "\n", "; TTL 600\n", "w2\t600\tIN A\t2.2.2.2\n", "\n",
   "; CNAME Records\n", "; TTL 300\n", "w2\t300\tIN CNAME\tw1\n", "\n"]

/-- Witness instantiating `C6_ttl_grouping` on concrete data. -/
theorem C6_ttl_grouping_witness :
    collectGroups c6data ([], []) = some (c6ga, c6gc) ∧
    generate_bind9_zone c6data "zzz" = some c6ws ∧
    ((c6ga.map Prod.fst).Nodup ∧ (c6gc.map Prod.fst).Nodup ∧
     c6ga.map Prod.fst = keysOf ((flatA c6data).map Prod.fst) ∧
     c6gc.map Prod.fst = keysOf ((flatC c6data).map Prod.fst) ∧
     (∀ t, lookupA t c6ga =
       if selVals t (flatA c6data) = [] then none else some (selVals t (flatA c6data))) ∧
     (∀ t, lookupA t c6gc =
       if selVals t (flatC c6data) = [] then none else some (selVals t (flatC c6data))) ∧
     (∃ pre, c6ws = pre ++ write_grouped_records "A" c6ga
        ++ write_grouped_records "CNAME" c6gc)) :=
  ⟨by decide, by decide,
    C6_ttl_grouping c6data "zzz" c6ws c6ga c6gc (by decide) (by decide)⟩

/-! ### Claims C3 and C4 -/

theorem lookupA_insertA_self {α : Type} (d : List (String × α)) (k : String) (v : α) :
    lookupA k (insertA d k v) = some v := by
  rw [insertA]
  by_cases h : k ∈ d.map Prod.fst
  · rw [if_pos h]
    induction d with
    | nil => simp at h
    | cons p rest ih =>
      obtain ⟨pk, pv⟩ := p
      by_cases hp : pk = k
      · simp only [List.map_cons]
        rw [if_pos hp, lookupA, if_pos rfl]
      · simp only [List.map_cons]
        rw [if_neg hp, lookupA, if_neg hp]
        simp only [List.map_cons, List.mem_cons] at h
        rcases h with he | hm
        · exact absurd he.symm hp
        · exact ih hm
  · rw [if_neg h]
    have hn : lookupA k d = none := by
      cases hl : lookupA k d with
      | none => rfl
      | some w => exact absurd ((lookupA_isSome_iff k d).mp (by rw [hl]; rfl)) h
    clear h
    induction d with
    | nil => rw [List.nil_append, lookupA, if_pos rfl]
    | cons p rest ih =>
      obtain ⟨pk, pv⟩ := p
      have hne : ¬ pk = k := by
        intro e
        rw [lookupA, if_pos e] at hn
        exact Option.noConfusion hn
      rw [lookupA, if_neg hne] at hn
      rw [List.cons_append, lookupA, if_neg hne]
      exact ih hn

theorem lookupA_insertA_ne {α : Type} (d : List (String × α)) (k k' : String) (v : α)
    (h : k' ≠ k) : lookupA k' (insertA d k v) = lookupA k' d := by
  rw [insertA]
  by_cases hm : k ∈ d.map Prod.fst
  · rw [if_pos hm]
    clear hm
    induction d with
    | nil => rfl
    | cons p rest ih =>
      obtain ⟨pk, pv⟩ := p
      by_cases hp : pk = k
      · simp only [List.map_cons]
        rw [if_pos hp]
        have hne : ¬ pk = k' := fun e => h (e.symm.trans hp)
        have hne2 : ¬ k = k' := fun e => h e.symm
        rw [lookupA, lookupA, if_neg hne, if_neg hne2]
        exact ih
      · simp only [List.map_cons]
        rw [if_neg hp, lookupA, lookupA]
        by_cases hq : pk = k'
        · rw [if_pos hq, if_pos hq]
        · rw [if_neg hq, if_neg hq]
          exact ih
  · rw [if_neg hm]
    clear hm
    induction d with
    | nil =>
      rw [List.nil_append, lookupA, lookupA, if_neg (fun e => h e.symm)]
      rfl
    | cons p rest ih =>
      obtain ⟨pk, pv⟩ := p
      rw [List.cons_append, lookupA, lookupA]
      by_cases hq : pk = k'
      · rw [if_pos hq, if_pos hq]
      · rw [if_neg hq, if_neg hq]
        exact ih

theorem lookupA_updateA (d : Dict) (m : List (String × String)) (k : String) :
    lookupA k (updateA d m) =
      match lastVal k m with
      | some w => some w
      | none => lookupA k d := by
  induction m generalizing d with
  | nil => rfl
  | cons q m ih =>
    obtain ⟨qk, qv⟩ := q
    rw [show updateA d ((qk, qv) :: m) = updateA (insertA d qk qv) m from rfl, ih]
    cases hl : lastVal k m with
    | some w => simp [lastVal, hl]
    | none =>
      simp only [lastVal, hl]
      by_cases hq : qk = k
      · rw [if_pos hq]
        subst hq
        rw [lookupA_insertA_self]
      · rw [if_neg hq]
        rw [lookupA_insertA_ne _ _ _ _ (fun e => hq e.symm)]

/-- Claim C3 is false as stated: on the line `"A: 1.2.3.4 ip=9.9.9.9"` the
first whitespace token of the details is `"1.2.3.4"`, but the record's final
`ip` entry is `"9.9.9.9"` — the `ip=` attribute match lands in the same
dictionary and overwrites the positional field. -/
theorem C3_counterexample :
    pySplitWs "1.2.3.4 ip=9.9.9.9" = ["1.2.3.4", "ip=9.9.9.9"] ∧
    (parse_record "A: 1.2.3.4 ip=9.9.9.9").map (lookupA "ip") = some (some "9.9.9.9") ∧
    (some "9.9.9.9" : Option String) ≠ some "1.2.3.4" :=
  ⟨by decide, by decide, by decide⟩

/-- Claim C3 (amended): the parser takes the trimmed text before the first
colon as the type; for SOA/NS/CNAME the first whitespace token of the details
becomes the `domain` entry and for A it becomes the `ip` entry; every
`word=value` match of the details becomes an entry, later matches for the
same key overriding earlier ones — and, since all fields live in the one
record dictionary, a match whose key is `type`, `domain` or `ip` also
overrides the positional field (its last match wins; otherwise the
positional value stands).  Keys that occur in no match and are not
`type`/`domain`/`ip` are absent. -/
theorem C3_record_parser_amended (line rtype details : String) (rec : Dict)
    (hty : rtype = pyStrip (splitFirst ':' (pyStrip line)).1)
    (hdet : details = (match (splitFirst ':' (pyStrip line)).2 with
      | some s => pyStrip s
      | none => ""))
    (hp : parse_record line = some rec) :
    lookupA "type" rec = some ((lastVal "type" (findallKV details)).getD rtype) ∧
    ((rtype = "SOA" ∨ rtype = "NS" ∨ rtype = "CNAME") →
      ∃ tok toks, pySplitWs details = tok :: toks ∧
        lookupA "domain" rec = some ((lastVal "domain" (findallKV details)).getD tok)) ∧
    (rtype = "A" →
      ∃ tok toks, pySplitWs details = tok :: toks ∧
        lookupA "ip" rec = some ((lastVal "ip" (findallKV details)).getD tok)) ∧
    (∀ k, k ≠ "type" → k ≠ "domain" → k ≠ "ip" →
      lookupA k rec = lastVal k (findallKV details)) := by
  subst hty
  subst hdet
  set R := pyStrip (splitFirst ':' (pyStrip line)).1 with hR
  set D := (match (splitFirst ':' (pyStrip line)).2 with
    | some s => pyStrip s
    | none => "") with hD
  have key : parse_record line =
      (if R = "SOA" ∨ R = "NS" ∨ R = "CNAME" then
         match pySplitWs D with
         | [] => none
         | tok :: _ => some (insertA [("type", R)] "domain" tok)
       else if R = "A" then
         match pySplitWs D with
         | [] => none
         | tok :: _ => some (insertA [("type", R)] "ip" tok)
       else some [("type", R)]).map (fun b => updateA b (findallKV D)) := rfl
  rw [key] at hp
  by_cases h1 : R = "SOA" ∨ R = "NS" ∨ R = "CNAME"
  · rw [if_pos h1] at hp
    cases hs : pySplitWs D with
    | nil => rw [hs] at hp; cases hp
    | cons tok toks =>
      rw [hs] at hp
      simp only [Option.map_some', Option.some.injEq] at hp
      subst hp
      refine ⟨?_, ?_, ?_, ?_⟩
      · rw [lookupA_updateA]
        cases hl : lastVal "type" (findallKV D) with
        | some w => simp
        | none =>
          rw [lookupA_insertA_ne _ _ _ _ (by decide), lookupA, if_pos rfl]
          rfl
      · intro hx
        refine ⟨tok, toks, rfl, ?_⟩
        rw [lookupA_updateA]
        cases hl : lastVal "domain" (findallKV D) with
        | some w => simp
        | none =>
          rw [lookupA_insertA_self]
          rfl
      · intro hA
        exact absurd hA (by rcases h1 with e | e | e <;> rw [e] <;> decide)
      · intro k hk1 hk2 hk3
        rw [lookupA_updateA]
        cases hl : lastVal k (findallKV D) with
        | some w => rfl
        | none =>
          rw [lookupA_insertA_ne _ _ _ _ (fun e => hk2 e), lookupA,
            if_neg (fun e => hk1 e.symm)]
          rfl
  · rw [if_neg h1] at hp
    by_cases h2 : R = "A"
    · rw [if_pos h2] at hp
      cases hs : pySplitWs D with
      | nil => rw [hs] at hp; cases hp
      | cons tok toks =>
        rw [hs] at hp
        simp only [Option.map_some', Option.some.injEq] at hp
        subst hp
        refine ⟨?_, ?_, ?_, ?_⟩
        · rw [lookupA_updateA]
          cases hl : lastVal "type" (findallKV D) with
          | some w => simp
          | none =>
            rw [lookupA_insertA_ne _ _ _ _ (by decide), lookupA, if_pos rfl]
            rfl
        · intro hx
          exact absurd hx (by rw [h2]; decide)
        · intro hA
          refine ⟨tok, toks, rfl, ?_⟩
          rw [lookupA_updateA]
          cases hl : lastVal "ip" (findallKV D) with
          | some w => simp
          | none =>
            rw [lookupA_insertA_self]
            rfl
        · intro k hk1 hk2 hk3
          rw [lookupA_updateA]
          cases hl : lastVal k (findallKV D) with
          | some w => rfl
          | none =>
            rw [lookupA_insertA_ne _ _ _ _ (fun e => hk3 e), lookupA,
              if_neg (fun e => hk1 e.symm)]
            rfl
    · rw [if_neg h2] at hp
      simp only [Option.map_some', Option.some.injEq] at hp
      subst hp
      refine ⟨?_, ?_, ?_, ?_⟩
      · rw [lookupA_updateA]
        cases hl : lastVal "type" (findallKV D) with
        | some w => simp
        | none =>
          rw [lookupA, if_pos rfl]
          rfl
      · intro hx
        exact absurd hx h1
      · intro hA
        exact absurd hA h2
      · intro k hk1 hk2 hk3
        rw [lookupA_updateA]
        cases hl : lastVal k (findallKV D) with
        | some w => rfl
        | none =>
          rw [lookupA, if_neg (fun e => hk1 e.symm)]
          rfl

/-- Parsed record of the C3 witness line. -/
def c3rec : Dict := [("type", "A"), ("ip", "10.0.0.5"), ("ttl", "3600")]

/-- Witness instantiating `C3_record_parser_amended` on `"A: 10.0.0.5 ttl=3600"`. -/
theorem C3_record_parser_witness :
    parse_record "A: 10.0.0.5 ttl=3600" = some c3rec ∧
    (lookupA "type" c3rec =
        some ((lastVal "type" (findallKV "10.0.0.5 ttl=3600")).getD "A") ∧
      ((("A" : String) = "SOA" ∨ ("A" : String) = "NS" ∨ ("A" : String) = "CNAME") →
        ∃ tok toks, pySplitWs "10.0.0.5 ttl=3600" = tok :: toks ∧
          lookupA "domain" c3rec =
            some ((lastVal "domain" (findallKV "10.0.0.5 ttl=3600")).getD tok)) ∧
      (("A" : String) = "A" →
        ∃ tok toks, pySplitWs "10.0.0.5 ttl=3600" = tok :: toks ∧
          lookupA "ip" c3rec =
            some ((lastVal "ip" (findallKV "10.0.0.5 ttl=3600")).getD tok)) ∧
      (∀ k, k ≠ "type" → k ≠ "domain" → k ≠ "ip" →
        lookupA k c3rec = lastVal k (findallKV "10.0.0.5 ttl=3600"))) :=
  ⟨by decide,
    C3_record_parser_amended "A: 10.0.0.5 ttl=3600" "A" "10.0.0.5 ttl=3600" c3rec
      (by decide) (by decide) (by decide)⟩

theorem splitFirst_snd_none {c : Char} {s : String} (h : (splitFirst c s).2 = none) :
    (splitFirst c s).1 = s := by
  rw [splitFirst] at h ⊢
  by_cases hm : c ∈ s.data
  · rw [if_pos hm] at h
    cases h
  · rw [if_neg hm]

/-- Claim C4 is false as stated: `"A"` is a trimmed line without a colon, yet
the parser raises (`details.split()[0]` on an empty token list, modelled as
`none`) instead of returning a degenerate record. -/
theorem C4_counterexample :
    pyStrip "A" = "A" ∧ (splitFirst ':' "A").2 = none ∧ parse_record "A" = none :=
  ⟨by decide, by decide, by decide⟩

/-- Claim C4 (amended): the record parser raises exactly when the trimmed
text before the first colon is one of the recognized types SOA, NS, CNAME, A
and the details contain no whitespace-delimited token (in particular on the
bare lines `"SOA"`, `"NS"`, `"CNAME"`, `"A"` themselves); for every other
trimmed line no error occurs: an unrecognized type yields the record holding
the type and the `word=value` attributes only, and a line lacking a colon
yields the degenerate record whose type is the whole trimmed line with empty
details. -/
theorem C4_no_error_amended (line rtype details : String)
    (hty : rtype = pyStrip (splitFirst ':' (pyStrip line)).1)
    (hdet : details = (match (splitFirst ':' (pyStrip line)).2 with
      | some s => pyStrip s
      | none => "")) :
    (parse_record line = none ↔
      ((rtype = "SOA" ∨ rtype = "NS" ∨ rtype = "CNAME" ∨ rtype = "A") ∧
        pySplitWs details = [])) ∧
    ((rtype ≠ "SOA" ∧ rtype ≠ "NS" ∧ rtype ≠ "CNAME" ∧ rtype ≠ "A") →
      parse_record line = some (updateA [("type", rtype)] (findallKV details))) ∧
    (pyStrip line = line → (splitFirst ':' line).2 = none →
      (rtype ≠ "SOA" ∧ rtype ≠ "NS" ∧ rtype ≠ "CNAME" ∧ rtype ≠ "A") →
      parse_record line = some [("type", line)]) := by
  subst hty
  subst hdet
  set R := pyStrip (splitFirst ':' (pyStrip line)).1 with hR
  set D := (match (splitFirst ':' (pyStrip line)).2 with
    | some s => pyStrip s
    | none => "") with hD
  have key : parse_record line =
      (if R = "SOA" ∨ R = "NS" ∨ R = "CNAME" then
         match pySplitWs D with
         | [] => none
         | tok :: _ => some (insertA [("type", R)] "domain" tok)
       else if R = "A" then
         match pySplitWs D with
         | [] => none
         | tok :: _ => some (insertA [("type", R)] "ip" tok)
       else some [("type", R)]).map (fun b => updateA b (findallKV D)) := rfl
  refine ⟨?_, ?_, ?_⟩
  · rw [key]
    by_cases h1 : R = "SOA" ∨ R = "NS" ∨ R = "CNAME"
    · rw [if_pos h1]
      cases hs : pySplitWs D with
      | nil => exact iff_of_true rfl ⟨by tauto, rfl⟩
      | cons tok toks => exact iff_of_false (by simp) (by simp [hs])
    · rw [if_neg h1]
      by_cases h2 : R = "A"
      · rw [if_pos h2]
        cases hs : pySplitWs D with
        | nil => exact iff_of_true rfl ⟨by tauto, rfl⟩
        | cons tok toks => exact iff_of_false (by simp) (by simp [hs])
      · rw [if_neg h2]
        exact iff_of_false (by simp) (by rintro ⟨hd, _⟩; tauto)
  · rintro ⟨n1, n2, n3, n4⟩
    rw [key, if_neg (by tauto), if_neg n4]
    rfl
  · intro hstrip hcolon hne
    have h1 : (splitFirst ':' (pyStrip line)).1 = line := by
      rw [hstrip]
      exact splitFirst_snd_none hcolon
    have hR2 : R = line := by rw [hR, h1, hstrip]
    have hD2 : D = "" := by
      rw [hD, hstrip, hcolon]

    rw [key, if_neg (by tauto), if_neg hne.2.2.2, hD2, hR2]
    rfl

/-- Witness instantiating `C4_no_error_amended` on the colonless line `"junk"`. -/
theorem C4_no_error_witness :
    pyStrip "junk" = "junk" ∧ (splitFirst ':' "junk").2 = none ∧
    parse_record "junk" = some [("type", "junk")] :=
  ⟨by decide, by decide,
    (C4_no_error_amended "junk" "junk" "" (by decide) (by decide)).2.2 (by decide) (by decide)
      ⟨by decide, by decide, by decide, by decide⟩⟩

/-! ### Claim C2 -/

theorem splitChA_no_sep (sep : Char) :
    ∀ (l acc : List Char), (∀ c ∈ acc, c ≠ sep) →
      ∀ x ∈ splitChA sep l acc, ∀ c ∈ x, c ≠ sep := by
  intro l
  induction l with
  | nil =>
    intro acc hacc x hx c hc
    simp only [splitChA, List.mem_singleton] at hx
    subst hx
    exact hacc c (List.mem_reverse.mp hc)
  | cons a cs ih =>
    intro acc hacc x hx c hc
    by_cases ha : a = sep
    · rw [splitChA, if_pos ha] at hx
      rcases List.mem_cons.mp hx with rfl | hx
      · exact hacc c (List.mem_reverse.mp hc)
      · exact ih [] (by simp) x hx c hc
    · rw [splitChA, if_neg ha] at hx
      refine ih (a :: acc) ?_ x hx c hc
      intro c' hc'
      rcases List.mem_cons.mp hc' with rfl | hc'
      · exact ha
      · exact hacc c' hc'

theorem pySplit_no_sep (sep : Char) (s : String) :
    ∀ x ∈ pySplit sep s, ∀ c ∈ x.data, c ≠ sep := by
  intro x hx
  obtain ⟨l, hl, rfl⟩ := List.mem_map.mp hx
  exact splitChA_no_sep sep s.data [] (by simp) l hl

theorem splitChA_run (sep : Char) (piece : List Char) :
    ∀ (rest acc : List Char), (∀ c ∈ piece, c ≠ sep) →
      splitChA sep (piece ++ rest) acc = splitChA sep rest (piece.reverse ++ acc) := by
  induction piece with
  | nil => intro rest acc _; simp
  | cons a p ih =>
    intro rest acc hfree
    rw [List.cons_append, splitChA, if_neg (hfree a (List.mem_cons_self a p))]
    rw [ih rest (a :: acc) (fun c hc => hfree c (List.mem_cons_of_mem a hc))]
    have : p.reverse ++ (a :: acc) = (a :: p).reverse ++ acc := by
      simp
    rw [this]

theorem splitChA_last (sep : Char) (piece : List Char) (acc : List Char)
    (hfree : ∀ c ∈ piece, c ≠ sep) :
    splitChA sep piece acc = [acc.reverse ++ piece] := by
  have h := splitChA_run sep piece [] acc hfree
  rw [List.append_nil] at h
  rw [h, splitChA, List.reverse_append, List.reverse_reverse]

theorem pyJoin_cons₂ (s x y : String) (rest : List String) :
    pyJoin s (x :: y :: rest) = x ++ s ++ pyJoin s (y :: rest) := by
  show (y :: rest).foldl (fun a b => a ++ s ++ b) x = x ++ s ++ rest.foldl (fun a b => a ++ s ++ b) y
  rw [List.foldl_cons]
  generalize y = i
  induction rest generalizing i with
  | nil => rfl
  | cons u us ih =>
    rw [List.foldl_cons, List.foldl_cons]
    have ha : x ++ s ++ i ++ s ++ u = x ++ s ++ (i ++ s ++ u) := by
      simp [String.append_assoc]
    rw [ha]
    exact ih (i ++ s ++ u)

theorem pySplit_pyJoin (sep : Char) (parts : List String) (hne : parts ≠ [])
    (hfree : ∀ x ∈ parts, ∀ c ∈ x.data, c ≠ sep) :
    pySplit sep (pyJoin ⟨[sep]⟩ parts) = parts := by
  induction parts with
  | nil => exact absurd rfl hne
  | cons x rest ih =>
    cases rest with
    | nil =>
      show (splitChA sep x.data []).map (fun l => (⟨l⟩ : String)) = [x]
      rw [splitChA_last sep x.data [] (hfree x (List.mem_cons_self x []))]
      rfl
    | cons y rest2 =>
      rw [pyJoin_cons₂]
      show (splitChA sep ((x ++ ⟨[sep]⟩ ++ pyJoin ⟨[sep]⟩ (y :: rest2))).data []).map
          (fun l => (⟨l⟩ : String)) = x :: y :: rest2
      have hdata : ((x ++ ⟨[sep]⟩ ++ pyJoin ⟨[sep]⟩ (y :: rest2))).data
          = x.data ++ (sep :: (pyJoin ⟨[sep]⟩ (y :: rest2)).data) := by
        show (x.data ++ [sep]) ++ (pyJoin ⟨[sep]⟩ (y :: rest2)).data
            = x.data ++ (sep :: (pyJoin ⟨[sep]⟩ (y :: rest2)).data)
        rw [List.append_assoc]
        rfl
      rw [hdata, splitChA_run sep x.data _ [] (hfree x (List.mem_cons_self x _))]
      rw [show splitChA sep (sep :: (pyJoin ⟨[sep]⟩ (y :: rest2)).data) (x.data.reverse ++ [])
            = (x.data.reverse ++ []).reverse
              :: splitChA sep (pyJoin ⟨[sep]⟩ (y :: rest2)).data [] from by
          rw [splitChA, if_pos rfl]]
      rw [List.map_cons]
      rw [List.append_nil, List.reverse_reverse]
      have ihr := ih (by simp) (fun z hz => hfree z (List.mem_cons_of_mem x hz))
      rw [show (pySplit sep (pyJoin ⟨[sep]⟩ (y :: rest2)) : List String)
            = (splitChA sep (pyJoin ⟨[sep]⟩ (y :: rest2)).data []).map (fun l => (⟨l⟩ : String))
          from rfl] at ihr
      rw [ihr]

theorem mem_getD_bucketAdd {α : Type} {rz : Buckets α} {s : String} {p : α}
    (hp : p ∈ (lookupA s rz).getD []) (s' : String) (q : α) :
    p ∈ (lookupA s (bucketAdd rz s' q)).getD [] := by
  by_cases he : s' = s
  · subst he
    rw [lookupA_bucketAdd_self]
    exact List.mem_append_left _ hp
  · rw [lookupA_bucketAdd_ne _ _ _ _ (fun e => he e.symm)]
    exact hp

theorem mem_getD_bucketAdd_self {α : Type} (rz : Buckets α) (s : String) (q : α) :
    q ∈ (lookupA s (bucketAdd rz s q)).getD [] := by
  rw [lookupA_bucketAdd_self]
  exact List.mem_append_right _ (List.mem_singleton_self q)

theorem genRevRecords_mono {dm : String} {rs : List Dict} {rz rz' : RevZones}
    (h : genRevRecords dm rs rz = some rz') {s : String} {p : String × String}
    (hp : p ∈ (lookupA s rz).getD []) : p ∈ (lookupA s rz').getD [] := by
  induction rs generalizing rz with
  | nil =>
    rw [genRevRecords] at h
    obtain rfl := Option.some.inj h
    exact hp
  | cons r rest ih =>
    rw [genRevRecords] at h
    cases ht : lookupA "type" r with
    | none => rw [ht] at h; cases h
    | some t =>
      rw [ht] at h
      simp only [Option.bind_eq_bind', Option.some_bind] at h
      by_cases hA : t = "A"
      · rw [if_pos hA] at h
        cases hip : lookupA "ip" r with
        | none => rw [hip] at h; cases h
        | some ip =>
          rw [hip] at h
          simp only [Option.bind_eq_bind', Option.some_bind] at h
          exact ih h (mem_getD_bucketAdd hp _ _)
      · rw [if_neg hA] at h
        exact ih h hp

theorem genRevRecords_adds {dm : String} {rs : List Dict} {rz rz' : RevZones}
    {r : Dict} {ip : String} (hr : r ∈ rs) (hty : lookupA "type" r = some "A")
    (hip : lookupA "ip" r = some ip) (h : genRevRecords dm rs rz = some rz') :
    (pyJoin "." (pySplit '.' ip).reverse, dm)
      ∈ (lookupA (pyJoin "." ((pySplit '.' ip).take 3)) rz').getD [] := by
  induction rs generalizing rz with
  | nil => cases hr
  | cons x rest ih =>
    rcases List.mem_cons.mp hr with rfl | hr
    · rw [genRevRecords, hty] at h
      simp only [Option.bind_eq_bind', Option.some_bind, if_pos rfl, hip] at h
      exact genRevRecords_mono h (mem_getD_bucketAdd_self _ _ _)
    · rw [genRevRecords] at h
      cases ht : lookupA "type" x with
      | none => rw [ht] at h; cases h
      | some t =>
        rw [ht] at h
        simp only [Option.bind_eq_bind', Option.some_bind] at h
        by_cases hA : t = "A"
        · rw [if_pos hA] at h
          cases hip2 : lookupA "ip" x with
          | none => rw [hip2] at h; cases h
          | some ip2 =>
            rw [hip2] at h
            simp only [Option.bind_eq_bind', Option.some_bind] at h
            exact ih hr h
        · rw [if_neg hA] at h
          exact ih hr h

theorem generate_reverse_zone_mono {d : DnsData} {rz rz' : RevZones}
    (h : generate_reverse_zone d rz = some rz') {s : String} {p : String × String}
    (hp : p ∈ (lookupA s rz).getD []) : p ∈ (lookupA s rz').getD [] := by
  induction d generalizing rz with
  | nil =>
    rw [generate_reverse_zone] at h
    obtain rfl := Option.some.inj h
    exact hp
  | cons q rest ih =>
    obtain ⟨dm, node⟩ := q
    rw [generate_reverse_zone] at h
    by_cases hq : dm = "root"
    · rw [if_pos hq] at h
      exact ih h hp
    · rw [if_neg hq] at h
      simp only [Option.bind_eq_bind', Option.bind_eq_some] at h
      obtain ⟨rz₁, h₁, h₂⟩ := h
      exact ih h₂ (genRevRecords_mono h₁ hp)

theorem generate_reverse_zone_adds {d : DnsData} {rz rz' : RevZones}
    {dm : String} {node : ZoneNode} {r : Dict} {ip : String}
    (hmem : (dm, node) ∈ d) (hroot : dm ≠ "root") (hr : r ∈ node.DNS_Records)
    (hty : lookupA "type" r = some "A") (hip : lookupA "ip" r = some ip)
    (h : generate_reverse_zone d rz = some rz') :
    (pyJoin "." (pySplit '.' ip).reverse, dm)
      ∈ (lookupA (pyJoin "." ((pySplit '.' ip).take 3)) rz').getD [] := by
  induction d generalizing rz with
  | nil => cases hmem
  | cons q rest ih =>
    obtain ⟨qm, qnode⟩ := q
    rw [generate_reverse_zone] at h
    rcases List.mem_cons.mp hmem with he | hmem
    · have e1 : dm = qm := congrArg Prod.fst he
      have e2 : node = qnode := congrArg Prod.snd he
      subst e1
      subst e2
      rw [if_neg hroot] at h
      simp only [Option.bind_eq_bind', Option.bind_eq_some] at h
      obtain ⟨rz₁, h₁, h₂⟩ := h
      exact generate_reverse_zone_mono h₂ (genRevRecords_adds hr hty hip h₁)
    · by_cases hq : qm = "root"
      · rw [if_pos hq] at h
        exact ih hmem h
      · rw [if_neg hq] at h
        simp only [Option.bind_eq_bind', Option.bind_eq_some] at h
        obtain ⟨rz₁, h₁, h₂⟩ := h
        exact ih hmem h₂

theorem processZones_mono {ds : List DnsData} {rz rz' : RevZones}
    (h : processZones ds rz = some rz') {s : String} {p : String × String}
    (hp : p ∈ (lookupA s rz).getD []) : p ∈ (lookupA s rz').getD [] := by
  induction ds generalizing rz with
  | nil =>
    rw [processZones] at h
    obtain rfl := Option.some.inj h
    exact hp
  | cons d rest ih =>
    rw [processZones] at h
    simp only [Option.bind_eq_bind', Option.bind_eq_some] at h
    obtain ⟨rz₁, h₁, h₂⟩ := h
    exact ih h₂ (generate_reverse_zone_mono h₁ hp)

theorem processZones_adds {ds : List DnsData} {rz rz' : RevZones} {d : DnsData}
    {dm : String} {node : ZoneNode} {r : Dict} {ip : String}
    (hd : d ∈ ds) (hmem : (dm, node) ∈ d) (hroot : dm ≠ "root")
    (hr : r ∈ node.DNS_Records) (hty : lookupA "type" r = some "A")
    (hip : lookupA "ip" r = some ip) (h : processZones ds rz = some rz') :
    (pyJoin "." (pySplit '.' ip).reverse, dm)
      ∈ (lookupA (pyJoin "." ((pySplit '.' ip).take 3)) rz').getD [] := by
  induction ds generalizing rz with
  | nil => cases hd
  | cons d₀ rest ih =>
    rw [processZones] at h
    simp only [Option.bind_eq_bind', Option.bind_eq_some] at h
    obtain ⟨rz₁, h₁, h₂⟩ := h
    rcases List.mem_cons.mp hd with rfl | hd
    · exact processZones_mono h₂ (generate_reverse_zone_adds hmem hroot hr hty hip h₁)
    · exact ih hd h₂

theorem lookupA_mem {α : Type} {k : String} {l : List (String × α)} {v : α}
    (h : lookupA k l = some v) : (k, v) ∈ l := by
  induction l with
  | nil => cases h
  | cons p rest ih =>
    obtain ⟨pk, pv⟩ := p
    rw [lookupA] at h
    by_cases hp : pk = k
    · rw [if_pos hp] at h
      obtain rfl := Option.some.inj h
      subst hp
      exact List.mem_cons_self _ _
    · rw [if_neg hp] at h
      exact List.mem_cons_of_mem _ (ih h)

/-- Claim C2: for every A record with a four-octet IP `a.b.c.d` under a
non-root node of any processed zone, the reverse index accumulated over the
whole run maps subnet `a.b.c` to a list containing `(d.c.b.a, node-name)`,
and the emitted reverse zone file for that subnet contains the PTR write
keyed on `d` pointing at `node-name.<internal-domain>.`. -/
theorem C2_reverse_ptr (ds : List DnsData) (rz : RevZones) (d : DnsData)
    (dm : String) (node : ZoneNode) (r : Dict) (ip a b c e : String)
    (hd : d ∈ ds) (hproc : processZones ds [] = some rz)
    (hmem : (dm, node) ∈ d) (hroot : dm ≠ "root") (hr : r ∈ node.DNS_Records)
    (hty : lookupA "type" r = some "A") (hip : lookupA "ip" r = some ip)
    (hsplit : pySplit '.' ip = [a, b, c, e]) :
    ∃ entry, lookupA (a ++ "." ++ b ++ "." ++ c) rz = some entry ∧
      (e ++ "." ++ c ++ "." ++ b ++ "." ++ a, dm) ∈ entry ∧
      ∃ ws, ("reverse_zone/db." ++ (a ++ "." ++ b ++ "." ++ c) ++ ".arpa", ws)
          ∈ write_reverse_zone_files rz ∧
        (e ++ "\tIN\tPTR\t" ++ dm ++ "." ++ DOMAIN_NAME ++ ".\n") ∈ ws := by
  have hsub : pyJoin "." ((pySplit '.' ip).take 3) = a ++ "." ++ b ++ "." ++ c := by
    rw [hsplit]
    rfl
  have hrev : pyJoin "." (pySplit '.' ip).reverse
      = e ++ "." ++ c ++ "." ++ b ++ "." ++ a := by
    rw [hsplit]
    rfl
  have hfree : ∀ x ∈ [e, c, b, a], ∀ c' ∈ x.data, c' ≠ '.' := by
    intro x hx
    refine pySplit_no_sep '.' ip x ?_
    rw [hsplit]
    simp only [List.mem_cons, List.not_mem_nil, or_false] at hx ⊢
    tauto
  have hrt : pySplit '.' (e ++ "." ++ c ++ "." ++ b ++ "." ++ a) = [e, c, b, a] :=
    pySplit_pyJoin '.' [e, c, b, a] (by simp) hfree
  have hpair := processZones_adds hd hmem hroot hr hty hip hproc
  rw [hsub, hrev] at hpair
  cases hlook : lookupA (a ++ "." ++ b ++ "." ++ c) rz with
  | none => rw [hlook] at hpair; simp at hpair
  | some entry =>
    rw [hlook] at hpair
    refine ⟨entry, rfl, hpair, ?_⟩
    refine ⟨_, List.mem_map_of_mem _ (lookupA_mem hlook), ?_⟩
    refine List.mem_append_left _ (List.mem_append_right _ ?_)
    have him := List.mem_map_of_mem
      (fun q : String × String =>
        ((pySplit '.' q.1).headD "") ++ "\tIN\tPTR\t" ++ q.2 ++ "." ++ DOMAIN_NAME ++ ".\n")
      hpair
    simpa [hrt] using him

/-- Zone description of the C2 witness. -/
def c2zone : DnsData :=
  [("root", ⟨1, 1, [[("type", "SOA"), ("ttl", "300"), ("serial", "1"), ("refresh", "2"),
      ("retry", "3"), ("expire", "4"), ("minttl", "5")]]⟩),
   ("web1", ⟨1, 0, [[("type", "A"), ("ip", "10.0.0.5"), ("ttl", "3600")]]⟩)]

/-- Reverse index accumulated from the C2 witness run. -/
def c2rz : RevZones := [("10.0.0", [("5.0.0.10", "web1")])]

/-- Witness instantiating `C2_reverse_ptr` on a concrete run. -/
theorem C2_reverse_ptr_witness :
    processZones [c2zone] [] = some c2rz ∧
    pySplit '.' "10.0.0.5" = ["10", "0", "0", "5"] ∧
    (∃ entry, lookupA ("10" ++ "." ++ "0" ++ "." ++ "0") c2rz = some entry ∧
      (("5" : String) ++ "." ++ "0" ++ "." ++ "0" ++ "." ++ "10", "web1") ∈ entry ∧
      ∃ ws, ("reverse_zone/db." ++ ("10" ++ "." ++ "0" ++ "." ++ "0") ++ ".arpa", ws)
          ∈ write_reverse_zone_files c2rz ∧
        (("5" : String) ++ "\tIN\tPTR\t" ++ "web1" ++ "." ++ DOMAIN_NAME ++ ".\n") ∈ ws) :=
  ⟨by decide, by decide,
    C2_reverse_ptr [c2zone] c2rz c2zone "web1" ⟨1, 0, [[("type", "A"), ("ip", "10.0.0.5"),
        ("ttl", "3600")]]⟩ [("type", "A"), ("ip", "10.0.0.5"), ("ttl", "3600")]
      "10.0.0.5" "10" "0" "0" "5"
      (by decide) (by decide) (by decide) (by decide) (by decide) (by decide) (by decide)
      (by decide)⟩

/-! ### Claim C1 -/

/-- Does the stripped line open with `Name=` (the header test of the loop)? -/
def isHeader (l : String) : Bool := pyStartswith (pyStrip l) "Name="

/-- The node key a line creates when it is a well-formed header: the raw name
of the header, with an empty name normalized to `"root"`. -/
def headerName? (l : String) : Option String :=
  if isHeader l then
    (headerRaw (pyStrip l)).map fun t => if t.1 = "" then "root" else t.1
  else none

/-- Records parsed from the non-blank lines of a header-free segment. -/
def recsOfSeg : List String → List Dict
  | [] => []
  | l :: ls =>
    if pyStrip l = "" then recsOfSeg ls
    else
      match parse_record (pyStrip l) with
      | some rec => rec :: recsOfSeg ls
      | none => recsOfSeg ls

theorem pstep_skip (st : PState) (l : String) (hh : isHeader l = false)
    (hcur : st.2 = none) : pstep st l = some st := by
  simp only [isHeader] at hh
  by_cases he : pyStrip l = ""
  · have h0 : pyStartswith "" "Name=" = false := by decide
    simp [pstep, he, h0]
  · simp [pstep, hh, he, hcur]

theorem runLines_cons (l : String) (ls : List String) (st : PState) :
    runLines (l :: ls) st =
      match pstep st l with
      | none => none
      | some st₁ => runLines ls st₁ := rfl

theorem runLines_append (xs ys : List String) (st : PState) :
    runLines (xs ++ ys) st = (runLines xs st).bind fun st₁ => runLines ys st₁ := by
  induction xs generalizing st with
  | nil => rfl
  | cons l ls ih =>
    rw [List.cons_append, runLines_cons, runLines_cons]
    cases pstep st l with
    | none => rfl
    | some st₁ => exact ih st₁

theorem runLines_skip_pre (pre : List String) (d : DnsData)
    (hpre : ∀ l ∈ pre, isHeader l = false) :
    runLines pre (d, none) = some (d, none) := by
  induction pre with
  | nil => rfl
  | cons l ls ih =>
    rw [runLines_cons, pstep_skip (d, none) l (hpre l (List.mem_cons_self l ls)) rfl]
    exact ih fun x hx => hpre x (List.mem_cons_of_mem l hx)

theorem insertA_map_fst {α : Type} (d : List (String × α)) (k : String) (v : α) :
    (insertA d k v).map Prod.fst =
      if k ∈ d.map Prod.fst then d.map Prod.fst else d.map Prod.fst ++ [k] := by
  by_cases h : k ∈ d.map Prod.fst
  · rw [if_pos h, insertA, if_pos h, List.map_map]
    refine List.map_congr_left ?_
    intro p _
    by_cases hp : p.1 = k
    · simp [Function.comp, hp]
    · simp [Function.comp, hp]
  · rw [if_neg h, insertA, if_neg h, List.map_append]
    rfl

theorem appendRecord_map_fst (d : DnsData) (cur : String) (rec : Dict) :
    (appendRecord d cur rec).map Prod.fst = d.map Prod.fst := by
  rw [appendRecord, List.map_map]
  refine List.map_congr_left ?_
  intro p _
  by_cases hp : p.1 = cur
  · simp [Function.comp, hp]
  · simp [Function.comp, hp]

theorem pstep_cases {st st₁ : PState} {l : String} (h : pstep st l = some st₁) :
    (∃ raw r c, isHeader l = true ∧ headerRaw (pyStrip l) = some (raw, r, c) ∧
      st₁ = (insertA st.1 (if raw = "" then "root" else raw) ⟨r, c, []⟩,
             some (if raw = "" then "root" else raw))) ∨
    (∃ cur rec, isHeader l = false ∧ pyStrip l ≠ "" ∧ st.2 = some cur ∧
      parse_record (pyStrip l) = some rec ∧
      st₁ = (appendRecord st.1 cur rec, st.2)) ∨
    (isHeader l = false ∧ (pyStrip l = "" ∨ st.2 = none) ∧ st₁ = st) := by
  rw [pstep] at h
  by_cases hh : pyStartswith (pyStrip l) "Name=" = true
  · rw [if_pos hh] at h
    cases hr : headerRaw (pyStrip l) with
    | none => rw [hr] at h; cases h
    | some t =>
      obtain ⟨nm, r, c⟩ := t
      rw [hr] at h
      obtain rfl := Option.some.inj h
      exact Or.inl ⟨nm, r, c, hh, rfl, rfl⟩
  · rw [if_neg hh] at h
    have hH : isHeader l = false := by
      rw [isHeader]
      exact Bool.not_eq_true _ ▸ (by simpa using hh)
    by_cases he : pyStrip l = ""
    · rw [if_neg (by simp [he])] at h
      obtain rfl := Option.some.inj h
      exact Or.inr (Or.inr ⟨hH, Or.inl he, rfl⟩)
    · rw [if_pos he] at h
      cases hcur : st.2 with
      | none =>
        rw [hcur] at h
        obtain rfl := Option.some.inj h
        exact Or.inr (Or.inr ⟨hH, Or.inr rfl, rfl⟩)
      | some cur =>
        rw [hcur] at h
        cases hpr : parse_record (pyStrip l) with
        | none => rw [hpr] at h; cases h
        | some rec =>
          rw [hpr] at h
          obtain rfl := Option.some.inj h
          exact Or.inr (Or.inl ⟨cur, rec, hH, he, rfl, rfl, rfl⟩)

theorem headerName?_eq_some {l : String} {raw : String} {r c : Int}
    (hH : isHeader l = true) (hR : headerRaw (pyStrip l) = some (raw, r, c)) :
    headerName? l = some (if raw = "" then "root" else raw) := by
  rw [headerName?, if_pos hH, hR]
  rfl

theorem headerName?_eq_none {l : String} (hH : isHeader l = false) :
    headerName? l = none := by
  rw [headerName?, if_neg (by simp [hH])]

theorem runLines_keys {ls : List String} {st st' : PState}
    (h : runLines ls st = some st') (n : String) :
    n ∈ st'.1.map Prod.fst ↔
      (n ∈ st.1.map Prod.fst ∨ ∃ l ∈ ls, headerName? l = some n) := by
  induction ls generalizing st with
  | nil =>
    obtain rfl := Option.some.inj h
    simp
  | cons l ls ih =>
    rw [runLines_cons] at h
    cases hp : pstep st l with
    | none => rw [hp] at h; cases h
    | some st₁ =>
      rw [hp] at h
      have ihh := ih h
      rcases pstep_cases hp with ⟨raw, r, c, hH, hR, rfl⟩ |
        ⟨cur, rec, hH, hne, hcur, hpr, rfl⟩ | ⟨hH, _, rfl⟩
      · have hname := headerName?_eq_some hH hR
        rw [ihh]
        have hkeys : n ∈ (insertA st.1 (if raw = "" then "root" else raw)
              (⟨r, c, []⟩ : ZoneNode)).map Prod.fst ↔
            n ∈ st.1.map Prod.fst ∨ n = (if raw = "" then "root" else raw) := by
          rw [insertA_map_fst]
          by_cases hk : (if raw = "" then "root" else raw) ∈ st.1.map Prod.fst
          · rw [if_pos hk]
            constructor
            · exact Or.inl
            · rintro (hm | rfl)
              · exact hm
              · exact hk
          · rw [if_neg hk]
            simp
        rw [hkeys]
        constructor
        · rintro (⟨hm | rfl⟩ | hex)
          · exact Or.inl hm
          · exact Or.inr ⟨l, List.mem_cons_self _ _, hname⟩
          · obtain ⟨l', hl', hn'⟩ := hex
            exact Or.inr ⟨l', List.mem_cons_of_mem _ hl', hn'⟩
        · rintro (hm | ⟨l', hl', hn'⟩)
          · exact Or.inl (Or.inl hm)
          · rcases List.mem_cons.mp hl' with rfl | hl'
            · rw [hname] at hn'
              exact Or.inl (Or.inr (Option.some.inj hn').symm)
            · exact Or.inr ⟨l', hl', hn'⟩
      · have hname := headerName?_eq_none hH
        rw [ihh]
        have hkeys : (appendRecord st.1 cur rec).map Prod.fst = st.1.map Prod.fst :=
          appendRecord_map_fst _ _ _
        rw [hkeys]
        constructor
        · rintro (hm | ⟨l', hl', hn'⟩)
          · exact Or.inl hm
          · exact Or.inr ⟨l', List.mem_cons_of_mem _ hl', hn'⟩
        · rintro (hm | ⟨l', hl', hn'⟩)
          · exact Or.inl hm
          · rcases List.mem_cons.mp hl' with rfl | hl'
            · rw [hname] at hn'
              cases hn'
            · exact Or.inr ⟨l', hl', hn'⟩
      · have hname := headerName?_eq_none hH
        rw [ihh]
        constructor
        · rintro (hm | ⟨l', hl', hn'⟩)
          · exact Or.inl hm
          · exact Or.inr ⟨l', List.mem_cons_of_mem _ hl', hn'⟩
        · rintro (hm | ⟨l', hl', hn'⟩)
          · exact Or.inl hm
          · rcases List.mem_cons.mp hl' with rfl | hl'
            · rw [hname] at hn'
              cases hn'
            · exact Or.inr ⟨l', hl', hn'⟩

theorem runLines_nodup {ls : List String} {st st' : PState}
    (h : runLines ls st = some st') (hn : (st.1.map Prod.fst).Nodup) :
    (st'.1.map Prod.fst).Nodup := by
  induction ls generalizing st with
  | nil =>
    obtain rfl := Option.some.inj h
    exact hn
  | cons l ls ih =>
    rw [runLines_cons] at h
    cases hp : pstep st l with
    | none => rw [hp] at h; cases h
    | some st₁ =>
      rw [hp] at h
      rcases pstep_cases hp with ⟨raw, r, c, hH, hR, rfl⟩ |
        ⟨cur, rec, hH, hne, hcur, hpr, rfl⟩ | ⟨hH, _, rfl⟩
      · refine ih h ?_
        show ((insertA st.1 _ _).map Prod.fst).Nodup
        rw [insertA_map_fst]
        by_cases hk : (if raw = "" then "root" else raw) ∈ st.1.map Prod.fst
        · rw [if_pos hk]
          exact hn
        · rw [if_neg hk]
          rw [List.nodup_append]
          exact ⟨hn, List.nodup_singleton _, by simp [List.disjoint_singleton, hk]⟩
      · refine ih h ?_
        show ((appendRecord st.1 cur rec).map Prod.fst).Nodup
        rw [appendRecord_map_fst]
        exact hn
      · exact ih h hn

theorem lookupA_appendRecord_self (d : DnsData) (cur : String) (rec : Dict) :
    lookupA cur (appendRecord d cur rec) =
      (lookupA cur d).map fun nd =>
        (⟨nd.Records, nd.Children, nd.DNS_Records ++ [rec]⟩ : ZoneNode) := by
  induction d with
  | nil => rfl
  | cons p rest ih =>
    obtain ⟨pk, pv⟩ := p
    rw [appendRecord, List.map_cons]
    dsimp only
    by_cases hp : pk = cur
    · rw [if_pos hp, lookupA, if_pos hp, lookupA, if_pos hp]
      rfl
    · rw [if_neg hp, lookupA, if_neg hp, lookupA, if_neg hp]
      exact ih

theorem lookupA_appendRecord_ne (d : DnsData) (cur : String) (rec : Dict)
    (n : String) (h : n ≠ cur) :
    lookupA n (appendRecord d cur rec) = lookupA n d := by
  induction d with
  | nil => rfl
  | cons p rest ih =>
    obtain ⟨pk, pv⟩ := p
    rw [appendRecord, List.map_cons]
    dsimp only
    by_cases hp : pk = cur
    · have hq : ¬ pk = n := fun e => h (e.symm.trans hp)
      rw [if_pos hp, lookupA, if_neg hq, lookupA, if_neg hq]
      exact ih
    · rw [if_neg hp, lookupA, lookupA]
      by_cases hq : pk = n
      · rw [if_pos hq, if_pos hq]
      · rw [if_neg hq, if_neg hq]
        exact ih

theorem runLines_preserve {n : String} {ls : List String} {st st' : PState}
    (h : runLines ls st = some st')
    (hls : ∀ l ∈ ls, ∀ nm, headerName? l = some nm → nm ≠ n)
    (hcur : st.2 ≠ some n) :
    lookupA n st'.1 = lookupA n st.1 ∧ st'.2 ≠ some n := by
  induction ls generalizing st with
  | nil =>
    obtain rfl := Option.some.inj h
    exact ⟨rfl, hcur⟩
  | cons l ls ih =>
    rw [runLines_cons] at h
    cases hp : pstep st l with
    | none => rw [hp] at h; cases h
    | some st₁ =>
      rw [hp] at h
      rcases pstep_cases hp with ⟨raw, r, c, hH, hR, rfl⟩ |
        ⟨cur, rec, hH, hne, hcur2, hpr, rfl⟩ | ⟨hH, _, rfl⟩
      · have hname := headerName?_eq_some hH hR
        have hkey : (if raw = "" then "root" else raw) ≠ n :=
          hls l (List.mem_cons_self _ _) _ hname
        obtain ⟨hl1, hl2⟩ := ih h (fun x hx => hls x (List.mem_cons_of_mem _ hx))
          (fun e => hkey (Option.some.inj e))
        refine ⟨?_, hl2⟩
        rw [hl1]
        exact lookupA_insertA_ne _ _ _ _ (fun e => hkey e.symm)
      · have hcn : cur ≠ n := fun e => hcur (by rw [hcur2, e])
        obtain ⟨hl1, hl2⟩ := ih h (fun x hx => hls x (List.mem_cons_of_mem _ hx)) hcur
        refine ⟨?_, hl2⟩
        rw [hl1]
        exact lookupA_appendRecord_ne _ _ _ _ (fun e => hcn e.symm)
      · exact ih h (fun x hx => hls x (List.mem_cons_of_mem _ hx)) hcur

theorem runLines_mid {n : String} {mid : List String} {st st' : PState} {node : ZoneNode}
    (h : runLines mid st = some st')
    (hcur : st.2 = some n)
    (hlook : lookupA n st.1 = some node)
    (hmid : ∀ l ∈ mid, ∀ nm, headerName? l = some nm → nm ≠ n) :
    lookupA n st'.1 =
      some ⟨node.Records, node.Children,
            node.DNS_Records ++ recsOfSeg (mid.takeWhile fun l => !(isHeader l))⟩ := by
  induction mid generalizing st node with
  | nil =>
    obtain rfl := Option.some.inj h
    rw [hlook]
    simp [recsOfSeg]
  | cons l mid ih =>
    rw [runLines_cons] at h
    cases hp : pstep st l with
    | none => rw [hp] at h; cases h
    | some st₁ =>
      rw [hp] at h
      cases hH : isHeader l with
      | true =>
        rcases pstep_cases hp with ⟨raw, r, c, hH2, hR, rfl⟩ |
          ⟨cur, rec, hH2, _, _, _, rfl⟩ | ⟨hH2, _, rfl⟩
        · have hname := headerName?_eq_some hH2 hR
          have hkey := hmid l (List.mem_cons_self _ _) _ hname
          have hpres := runLines_preserve h
            (fun x hx => hmid x (List.mem_cons_of_mem _ hx))
            (fun e => hkey (Option.some.inj e))
          rw [hpres.1]
          rw [show lookupA n
              ((insertA st.1 (if raw = "" then "root" else raw) ⟨r, c, []⟩, _) : PState).1
              = lookupA n st.1 from lookupA_insertA_ne _ _ _ _ (fun e => hkey e.symm)]
          rw [hlook]
          rw [show (l :: mid).takeWhile (fun x => !(isHeader x)) = [] from by
            rw [List.takeWhile_cons]
            simp [hH]]
          simp [recsOfSeg]
        · rw [hH] at hH2; cases hH2
        · rw [hH] at hH2; cases hH2
      | false =>
        have htw : (l :: mid).takeWhile (fun x => !(isHeader x)) =
            l :: mid.takeWhile (fun x => !(isHeader x)) := by
          rw [List.takeWhile_cons]
          simp [hH]
        rcases pstep_cases hp with ⟨raw, r, c, hH2, hR, rfl⟩ |
          ⟨cur, rec, hH2, hne, hcur2, hpr, rfl⟩ | ⟨hH2, hsk, rfl⟩
        · rw [hH2] at hH; cases hH
        · have hcn : cur = n := Option.some.inj (hcur2.symm.trans hcur)
          subst hcn
          have hst₁ : lookupA cur (appendRecord st.1 cur rec) =
              some ⟨node.Records, node.Children, node.DNS_Records ++ [rec]⟩ := by
            rw [lookupA_appendRecord_self, hlook]
            rfl
          have hrec := ih h hcur hst₁ (fun x hx => hmid x (List.mem_cons_of_mem _ hx))
          rw [hrec, htw]
          rw [show recsOfSeg (l :: mid.takeWhile (fun x => !(isHeader x)))
              = rec :: recsOfSeg (mid.takeWhile (fun x => !(isHeader x))) from by
            rw [recsOfSeg, if_neg hne, hpr]]
          simp
        · rcases hsk with hbl | hnone
          · have hrec := ih h hcur hlook (fun x hx => hmid x (List.mem_cons_of_mem _ hx))
            rw [hrec, htw]
            rw [show recsOfSeg (l :: mid.takeWhile (fun x => !(isHeader x)))
                = recsOfSeg (mid.takeWhile (fun x => !(isHeader x))) from by
              rw [recsOfSeg, if_pos hbl]]
          · rw [hcur] at hnone
            cases hnone

/-- Claim C1: (a) non-header lines (blank or not) seen before any `Name=`
header are ignored — dropping such a prefix leaves the parse unchanged;
(b) on success the zone description has pairwise distinct node keys and a
key exists exactly for the lines that are well-formed `Name=` headers, the
key being the raw header name with the empty name normalized to `"root"`
(so: exactly one node per distinct header); and (c) for a header followed by
lines among which no header produces the same key — in particular for the
last header of that name, making a later duplicate header overwrite the
earlier node — the final node carries that header's `Records`/`Children`
fields and exactly the records parsed from the non-blank lines up to the
next header, in order. -/
theorem C1_zone_description :
    (∀ (pre rest : List String), (∀ l ∈ pre, isHeader l = false) →
      parse_file (pre ++ rest) = parse_file rest) ∧
    (∀ (lines : List String) (d : DnsData), parse_file lines = some d →
      (d.map Prod.fst).Nodup ∧
      ∀ n, n ∈ d.map Prod.fst ↔ ∃ l ∈ lines, headerName? l = some n) ∧
    (∀ (pre : List String) (hl : String) (mid : List String) (d : DnsData)
       (raw : String) (r c : Int),
      parse_file (pre ++ hl :: mid) = some d →
      isHeader hl = true → headerRaw (pyStrip hl) = some (raw, r, c) →
      (∀ l ∈ mid, ∀ nm, headerName? l = some nm →
        nm ≠ (if raw = "" then "root" else raw)) →
      lookupA (if raw = "" then "root" else raw) d =
        some ⟨r, c, recsOfSeg (mid.takeWhile fun l => !(isHeader l))⟩) := by
  refine ⟨?_, ?_, ?_⟩
  · intro pre rest hpre
    rw [parse_file, parse_file, runLines_append, runLines_skip_pre pre [] hpre]
    rfl
  · intro lines d hp
    rw [parse_file] at hp
    cases hr : runLines lines ([], none) with
    | none => rw [hr] at hp; cases hp
    | some st' =>
      rw [hr] at hp
      simp only [Option.map_some', Option.some.injEq] at hp
      subst hp
      constructor
      · exact runLines_nodup hr (by simp)
      · intro n
        rw [runLines_keys hr n]
        simp
  · intro pre hl mid d raw r c hp hH hR hmid
    rw [parse_file] at hp
    cases hr : runLines (pre ++ hl :: mid) ([], none) with
    | none => rw [hr] at hp; cases hp
    | some st' =>
      rw [hr] at hp
      simp only [Option.map_some', Option.some.injEq] at hp
      subst hp
      rw [runLines_append] at hr
      cases h0 : runLines pre ([], none) with
      | none => rw [h0] at hr; cases hr
      | some st₀ =>
        rw [h0] at hr
        simp only [Option.some_bind] at hr
        rw [runLines_cons] at hr
        cases hps : pstep st₀ hl with
        | none => rw [hps] at hr; cases hr
        | some st₁ =>
          rw [hps] at hr
          rcases pstep_cases hps with ⟨raw', r', c', hH', hR', hst⟩ |
            ⟨_, _, hH', _, _, _, _⟩ | ⟨hH', _, _⟩
          · rw [hR] at hR'
            simp only [Option.some.injEq, Prod.mk.injEq] at hR'
            obtain ⟨e1, e2, e3⟩ := hR'
            subst e1
            subst e2
            subst e3
            subst hst
            have hfin := runLines_mid hr rfl
              (lookupA_insertA_self st₀.1 _ (⟨r, c, []⟩ : ZoneNode)) hmid
            simpa using hfin
          · rw [hH'] at hH
            cases hH
          · rw [hH'] at hH
            cases hH

/-- Zone description parsed from the C1 witness lines. -/
def c1d : DnsData :=
  [("root", ⟨1, 2, [[("type", "A"), ("ip", "10.0.0.5"), ("ttl", "3600")]]⟩)]

/-- Witness instantiating the record-attachment part of `C1_zone_description`:
a junk line before the first header is ignored, the empty header name is
normalized to `"root"`, and the record line attaches to that node. -/
theorem C1_zone_description_witness :
    parse_file ["junk", "Name=,Records=1,Children=2", "A: 10.0.0.5 ttl=3600"] = some c1d ∧
    isHeader "Name=,Records=1,Children=2" = true ∧
    headerRaw (pyStrip "Name=,Records=1,Children=2") = some ("", 1, 2) ∧
    lookupA (if "" = "" then "root" else "") c1d =
      some ⟨1, 2, recsOfSeg (["A: 10.0.0.5 ttl=3600"].takeWhile fun l => !(isHeader l))⟩ :=
  ⟨by decide, by decide, by decide,
    C1_zone_description.2.2 ["junk"] "Name=,Records=1,Children=2" ["A: 10.0.0.5 ttl=3600"]
      c1d "" 1 2 (by decide) (by decide) (by decide)
      (fun l hlm nm hnm => by
        rw [List.mem_singleton.mp hlm] at hnm
        rw [show headerName? "A: 10.0.0.5 ttl=3600" = none from by decide] at hnm
        cases hnm)⟩
